import Mathlib

/-!
Verification development for the summarization engine of the tldreply bot
(`GeminiService` in `src/services/gemini.ts`).

The TypeScript service is shallowly embedded as follows.

* JavaScript `String.prototype.includes` is embedded as `strIncludes`,
  a structurally recursive substring test on the character lists of the
  strings involved.
* The mutable fields of a `GeminiService` instance (`keys.length`,
  `currentKeyIndex`, `exhaustedKeys`, `exhaustionTimers`) are gathered in
  `GatewayState`, together with a wall-clock `now` (in seconds).  The
  `setTimeout` callbacks armed by `markKeyAsExhausted` are modelled by the
  entries of `exhaustionTimers`; `fireTimers st t` runs every callback whose
  expiry is `≤ t`, which is exactly what the event loop has done once the
  clock reaches `t`.  A single `generateContentWithFallback` call is treated
  as atomic with respect to the clock (its internal jitter delays are one to
  two seconds, far below the sixty second recovery window).
* The provider (`GoogleGenAI.models.generateContent`) is an injected
  function `Provider` from the sequence number of the request, the key index
  and the model name to either a completion text or an error message; a
  thrown provider exception is `Except.error msg` where `msg` is the
  exception's `message`.  (The code substitutes `'Unknown error'` for an
  absent message before classifying it; an empty message and
  `'Unknown error'` match none of the classification patterns, so the
  substitution is behaviourally invisible and is not modelled.)
* `generateContentWithFallback` is embedded as a function that returns, in
  addition to its result and the final mutable state, the full trace of
  provider requests it issued (`CallEvent`), each event recording the state
  just before and just after its error handling ran.
* `summarizeMessages` / `summarizeLargeMessageSet` / `summarizeChunk` are
  embedded with the gateway abstracted as an injected completion function
  from the call sequence number and the prompt to a result
  (one invocation of `generateContentWithFallback` per completion call),
  and they additionally return how many completion calls were issued.
-/

namespace TldReply

/-- `charsStartWith pat s`: `pat` is a prefix of the character list `s`. -/
def charsStartWith : List Char → List Char → Bool
  | [], _ => true
  | _ :: _, [] => false
  | a :: as, b :: bs => a == b && charsStartWith as bs

/-- `charsContain pat s`: `pat` occurs contiguously somewhere in `s`. -/
def charsContain (pat : List Char) : List Char → Bool
  | [] => pat.isEmpty
  | c :: rest => charsStartWith pat (c :: rest) || charsContain pat rest

/-- Embedding of JavaScript `s.includes(pat)`. -/
def strIncludes (s pat : String) : Bool :=
  charsContain pat.data s.data

/-- The quota/rate-limit test of `generateContentWithFallback`
(`QUOTA_EXCEEDED` / `429` / `RESOURCE_EXHAUSTED`). -/
def isQuotaError (msg : String) : Bool :=
  strIncludes msg "QUOTA_EXCEEDED" || strIncludes msg "429" ||
    strIncludes msg "RESOURCE_EXHAUSTED"

/-- The model-unavailable test of `generateContentWithFallback`
(`NOT_FOUND` / `503` / `500`). -/
def isModelUnavailableError (msg : String) : Bool :=
  strIncludes msg "NOT_FOUND" || strIncludes msg "503" || strIncludes msg "500"

/-- The invalid-credential test of `generateContentWithFallback`
(`API_KEY_INVALID`). -/
def isInvalidKeyError (msg : String) : Bool :=
  strIncludes msg "API_KEY_INVALID"

/-- Failure classes of `generateContentWithFallback`, in the order the code
tests them. -/
inductive ErrClass where
  | quota
  | modelUnavailable
  | invalidKey
  | other
deriving DecidableEq, Repr

/-- Classification of a provider error message, following the order of the
`if` chain in `generateContentWithFallback`. -/
def classifyError (msg : String) : ErrClass :=
  if isQuotaError msg then .quota
  else if isModelUnavailableError msg then .modelUnavailable
  else if isInvalidKeyError msg then .invalidKey
  else .other

/-- The mutable credential-rotation state of a `GeminiService` instance,
plus the wall clock `now` (seconds).  `exhaustionTimers` holds the pending
`setTimeout` callbacks as `(key index, expiry time)` pairs. -/
structure GatewayState where
  numKeys : Nat
  currentKeyIndex : Nat
  exhaustedKeys : List Nat
  exhaustionTimers : List (Nat × Nat)
  now : Nat
deriving DecidableEq, Repr

/-- The scanning loop of `getNextAvailableKeyIndex`: starting at `cur`, try
at most `fuel` positions, stepping by `(· + 1) % numKeys`, and return the
first position not in `exhausted`. -/
def scanAvailableKey (exhausted : List Nat) (numKeys : Nat) :
    Nat → Nat → Option Nat
  | 0, _ => none
  | fuel + 1, cur =>
    if cur ∈ exhausted then
      scanAvailableKey exhausted numKeys fuel ((cur + 1) % numKeys)
    else
      some cur

/-- Embedding of `getNextAvailableKeyIndex`: scan forward from the rotation
cursor for a non-exhausted key; if every key is exhausted, fall back to the
start index. -/
def getNextAvailableKeyIndex (st : GatewayState) : Nat :=
  (scanAvailableKey st.exhaustedKeys st.numKeys st.numKeys
      st.currentKeyIndex).getD st.currentKeyIndex

/-- Embedding of `markKeyAsExhausted`: a no-op on an already exhausted key;
otherwise add the key to the exhausted set and arm one recovery timer that
expires sixty seconds from now. -/
def markKeyAsExhausted (st : GatewayState) (index : Nat) : GatewayState :=
  if index ∈ st.exhaustedKeys then st
  else
    { st with
      exhaustedKeys := index :: st.exhaustedKeys
      exhaustionTimers := (index, st.now + 60) :: st.exhaustionTimers }

/-- Advance the wall clock to `t`: every pending `setTimeout` callback with
expiry `≤ t` has fired, deleting its key from the exhausted set and its own
entry from the timer map. -/
def fireTimers (st : GatewayState) (t : Nat) : GatewayState :=
  { st with
    now := t
    exhaustedKeys :=
      st.exhaustedKeys.filter fun i =>
        ! st.exhaustionTimers.any fun p => p.1 == i && decide (p.2 ≤ t)
    exhaustionTimers := st.exhaustionTimers.filter fun p => decide (t < p.2) }

/-- Embedding of `this.keys.some((_, i) => !this.exhaustedKeys.has(i))`. -/
def hasAvailableKey (st : GatewayState) : Bool :=
  (List.range st.numKeys).any fun i => decide (i ∉ st.exhaustedKeys)

/-- The fixed model chain of `generateContentWithFallback`. -/
def models : List String :=
  ["gemini-2.0-flash-001", "gemini-2.5-flash", "gemini-2.0-flash-lite-001",
    "gemini-flash-latest", "gemini-2.5-pro"]

/-- `maxGlobalRetries` from `generateContentWithFallback`. -/
def maxGlobalRetries : Nat := 3

/-- Injected provider behaviour: the outcome of the n-th `generateContent`
request of one `generateContentWithFallback` call, as a function of that
sequence number, the key index and the model identifier. -/
def Provider : Type :=
  Nat → Nat → String → Except String String

/-- One provider request issued by `generateContentWithFallback`:
which outer attempt and key made it, the position of the model in the chain
and its name, the outcome, and the gateway state just before the request and
just after its error handling ran. -/
structure CallEvent where
  attempt : Nat
  keyIndex : Nat
  modelIdx : Nat
  model : String
  outcome : Except String String
  stBefore : GatewayState
  stAfter : GatewayState

/-- The failure class of an event's outcome (`none` for a success). -/
def evClass (ev : CallEvent) : Option ErrClass :=
  match ev.outcome with
  | .error msg => some (classifyError msg)
  | .ok _ => none

/-- The error message of an event's outcome (`""` for a success). -/
def evErr (ev : CallEvent) : String :=
  match ev.outcome with
  | .error msg => msg
  | .ok _ => ""

/-- Result of running the model loop of one outer attempt: either a success,
or "fall through to the next outer attempt" (`break` on quota-with-spare-key
or on an invalid key, or the chain ran out), or an immediately propagated
unclassified error.  Each constructor carries the events issued, the state
after the loop and the updated request counter. -/
inductive ModelLoopResult where
  | success (text : String) (evs : List CallEvent) (st : GatewayState) (calls : Nat)
  | continueOuter (lastErr : Option String) (evs : List CallEvent)
      (st : GatewayState) (calls : Nat)
  | thrown (err : String) (evs : List CallEvent) (st : GatewayState) (calls : Nat)

/-- Record one more leading event (and, for a fall-through, fold its error
message into `lastError` as the earlier of the recorded errors). -/
def ModelLoopResult.prepend (ev : CallEvent) (msg : String) :
    ModelLoopResult → ModelLoopResult
  | .success t evs st c => .success t (ev :: evs) st c
  | .continueOuter le evs st c => .continueOuter (le <|> some msg) (ev :: evs) st c
  | .thrown e evs st c => .thrown e (ev :: evs) st c

/-- The events of a model-loop result. -/
def ModelLoopResult.evs : ModelLoopResult → List CallEvent
  | .success _ evs _ _ => evs
  | .continueOuter _ evs _ _ => evs
  | .thrown _ evs _ _ => evs

/-- The state after a model-loop result. -/
def ModelLoopResult.st : ModelLoopResult → GatewayState
  | .success _ _ st _ => st
  | .continueOuter _ _ st _ => st
  | .thrown _ _ st _ => st

/-- Embedding of the inner `for (const model of models)` loop of
`generateContentWithFallback`, for outer attempt `a` on key `k`, starting at
chain position `mIdx` with `calls` requests already issued:

* a successful request returns its text, normalized to a placeholder when
  empty (`response.text || 'Generated summary (no text returned)'`);
* a quota-class error marks the key exhausted, then breaks to the next outer
  attempt if some key is still available and otherwise continues with the
  next model on the same key;
* a model-unavailable error continues with the next model on the same key;
* an invalid-key error breaks to the next outer attempt;
* any other error is thrown immediately. -/
def tryModels (gen : Provider) (a k : Nat) :
    Nat → GatewayState → Nat → List String → ModelLoopResult
  | _, st, calls, [] => .continueOuter none [] st calls
  | mIdx, st, calls, model :: rest =>
    match gen calls k model with
    | .ok text =>
      .success (if text = "" then "Generated summary (no text returned)" else text)
        [⟨a, k, mIdx, model, .ok text, st, st⟩] st (calls + 1)
    | .error msg =>
      match classifyError msg with
      | .quota =>
        let st' := markKeyAsExhausted st k
        let ev : CallEvent := ⟨a, k, mIdx, model, .error msg, st, st'⟩
        if hasAvailableKey st' then
          .continueOuter (some msg) [ev] st' (calls + 1)
        else
          (tryModels gen a k (mIdx + 1) st' (calls + 1) rest).prepend ev msg
      | .modelUnavailable =>
        (tryModels gen a k (mIdx + 1) st (calls + 1) rest).prepend
          ⟨a, k, mIdx, model, .error msg, st, st⟩ msg
      | .invalidKey =>
        .continueOuter (some msg) [⟨a, k, mIdx, model, .error msg, st, st⟩]
          st (calls + 1)
      | .other =>
        .thrown msg [⟨a, k, mIdx, model, .error msg, st, st⟩] st (calls + 1)

/-- The observable behaviour of one `generateContentWithFallback` call: its
result, the full trace of provider requests, the final mutable state, and
the number of requests issued. -/
structure FallbackResult where
  result : Except String String
  trace : List CallEvent
  finalState : GatewayState
  calls : Nat

/-- Embedding of the outer retry loop of `generateContentWithFallback`:
attempt number `a` with `rem` outer attempts remaining.  Each attempt picks
the next available key starting at the rotation cursor, moves the cursor to
it and runs the model chain; after `maxGlobalRetries` failed attempts the
most recent recorded error is thrown. -/
def runAttempts (gen : Provider) :
    Nat → Nat → GatewayState → Nat → Option String → FallbackResult
  | _, 0, st, calls, lastErr => ⟨.error (lastErr.getD ""), [], st, calls⟩
  | a, rem + 1, st, calls, lastErr =>
    let k := getNextAvailableKeyIndex st
    let st1 := { st with currentKeyIndex := k }
    match tryModels gen a k 0 st1 calls models with
    | .success t evs st2 c => ⟨.ok t, evs, st2, c⟩
    | .thrown e evs st2 c => ⟨.error e, evs, st2, c⟩
    | .continueOuter le evs st2 c =>
      let r := runAttempts gen (a + 1) rem st2 c (le <|> lastErr)
      ⟨r.result, evs ++ r.trace, r.finalState, r.calls⟩

/-- Embedding of `generateContentWithFallback` (the Gateway `complete`
operation), started on gateway state `st` with provider behaviour `gen`. -/
def generateContentWithFallback (gen : Provider) (st : GatewayState) :
    FallbackResult :=
  runAttempts gen 0 maxGlobalRetries st 0 none

/-- A JSON value, used to model the result of `JSON.parse` in the
`GeminiService` constructor. -/
inductive JsonValue where
  | str (s : String)
  | num (n : Int)
  | bool (b : Bool)
  | null
  | arr (elems : List JsonValue)
  | obj (fields : List (String × JsonValue))

/-- An LLM client instance bound to one credential
(`new GoogleGenAI({apiKey: key})`). -/
structure GeminiClient where
  apiKey : JsonValue

/-- Embedding of the key-list setup in the `GeminiService` constructor.
`parse` is the runtime's `JSON.parse`, returning `none` when it throws.
A string argument is JSON-parsed: a JSON array yields its elements as the
credential list, any other parse result or a parse failure yields the
one-element list holding the string itself.  An array argument is taken
as the credential list directly. -/
def initialKeys (parse : String → Option JsonValue)
    (apiKeyOrKeys : String ⊕ List String) : List JsonValue :=
  match apiKeyOrKeys with
  | .inr keys => keys.map .str
  | .inl s =>
    match parse s with
    | some (.arr elems) => elems
    | some _ => [.str s]
    | none => [.str s]

/-- Embedding of `this.ais = this.keys.map(key => new GoogleGenAI({apiKey: key}))`:
one client instance per credential. -/
def initialClients (parse : String → Option JsonValue)
    (apiKeyOrKeys : String ⊕ List String) : List GeminiClient :=
  (initialKeys parse apiKeyOrKeys).map fun k => ⟨k⟩

/-- One chat message handed to `summarizeMessages`
(`{username?, firstName?, content, timestamp}`). -/
structure ChatMessage where
  username : Option String
  firstName : Option String
  content : String
  timestamp : String

/-- The options record of `summarizeMessages`
(`{customPrompt?, summaryStyle?}`). -/
structure SummaryOptions where
  customPrompt : Option String
  summaryStyle : Option String

/-- JavaScript truthiness of an optional string: `undefined`, `null` and
the empty string are falsy. -/
def jsTruthy : Option String → Bool
  | none => false
  | some s => !(s == "")

/-- `charsReplaceFirst pat rep s`: replace the first occurrence of `pat` in
`s` with `rep` (the semantics of JavaScript `s.replace(pat, rep)` with a
string pattern). -/
def charsReplaceFirst (pat rep : List Char) : List Char → List Char
  | [] => if pat.isEmpty then rep else []
  | c :: cs =>
    if charsStartWith pat (c :: cs) then rep ++ (c :: cs).drop pat.length
    else c :: charsReplaceFirst pat rep cs

/-- Embedding of JavaScript `s.replace(pat, rep)` for a string pattern:
only the first occurrence is replaced. -/
def strReplaceFirst (s pat rep : String) : String :=
  ⟨charsReplaceFirst pat.data rep.data s.data⟩

/-- Embedding of `getStyleInstructions`. -/
def getStyleInstructions (style : String) : String :=
  if style = "detailed" then
    "Provide a detailed, comprehensive summary. Include all important points, context, and nuances. Keep the summary under 500 words."
  else if style = "brief" then
    "Provide a very brief summary. Focus only on the most critical points. Keep the summary under 150 words."
  else if style = "bullet" then
    "Provide a summary using bullet points. Each bullet should be concise and clear. Keep the summary under 300 words."
  else if style = "timeline" then
    "Provide a chronological summary, organizing events and discussions in the order they occurred. Keep the summary under 400 words."
  else
    "Provide a concise, well-structured summary. Keep the summary under 300 words and use bullet points if helpful."

/-- The style string summarization uses: `options?.summaryStyle || 'default'`. -/
def effectiveStyle (options : Option SummaryOptions) : String :=
  match options with
  | none => "default"
  | some o => if jsTruthy o.summaryStyle then o.summaryStyle.getD "" else "default"

/-- The user tag of one rendered message line:
`msg.username ? '@' + msg.username : msg.firstName || 'Unknown'`. -/
def formatUser (m : ChatMessage) : String :=
  if jsTruthy m.username then "@" ++ m.username.getD ""
  else if jsTruthy m.firstName then m.firstName.getD ""
  else "Unknown"

/-- The rendered transcript of `summarizeChunk`: each message as
`"{index+1}. {user}: {content}"`, joined by blank lines. -/
def formatMessages (messages : List ChatMessage) : String :=
  String.intercalate "\n\n"
    (messages.enum.map fun p =>
      toString (p.1 + 1) ++ ". " ++ formatUser p.2 ++ ": " ++ p.2.content)

/-- The prompt built by `summarizeChunk`: a truthy `customPrompt` has its
first `{{messages}}` placeholder replaced by the transcript; otherwise the
fixed summarization directive with the style clause and the transcript. -/
def buildChunkPrompt (messages : List ChatMessage)
    (options : Option SummaryOptions) : String :=
  let formattedMessages := formatMessages messages
  if jsTruthy (options.bind fun o => o.customPrompt) then
    strReplaceFirst ((options.bind fun o => o.customPrompt).getD "")
      "\x7b\x7bmessages\x7d\x7d" formattedMessages
  else
    let styleInstructions := getStyleInstructions (effectiveStyle options)
    "You are a helpful assistant that summarizes Telegram group chat conversations.\n    "
      ++ styleInstructions
      ++ "\n\n    Focus on:\n    - Main topics discussed\n    - Key decisions or conclusions\n    - Important announcements\n    - Ongoing questions or unresolved issues\n    - Skip greetings, emojis-only messages, and spam\n\n    CRITICAL: When referring to users in the summary, ALWAYS use their actual username or name exactly as shown in the conversation:\n    - If a user has a username (shown as @username), use \"@username\" in the summary exactly as shown - including any underscores that are part of the username (e.g., @user_name)\n    - If a user only has a first name (shown without @), use just the first name exactly as shown - including any underscores if present\n    - Never use generic terms like \"A user\", \"Another user\", \"Someone\", etc.\n    - Do NOT wrap usernames/names in brackets [], or add formatting around them\n    - Write usernames/names exactly as they appear: @username (with underscores if part of the username) or FirstName\n    - DO NOT use underscores for formatting/emphasis (like _text_ for underlines) - but keep underscores that are part of actual usernames/names\n\n    IMPORTANT: Format your response using markdown:\n    - Use **bold** for important topics or section headers\n    - Use bullet points (* item) for lists\n    - Keep the summary clear and organized\n    - DO NOT use underscores for formatting/emphasis (like _text_ for underlines) - but preserve underscores that are part of usernames/names (e.g., @user_name is correct)\n    - DO NOT use any underline formatting in the summary\n\n    Conversation:\n    "
      ++ formattedMessages
      ++ "\n\n    Summary:"

/-- The merge prompt of `summarizeLargeMessageSet`, over `chunksCount`
partial summaries covering `totalMessages` messages. -/
def buildMergePrompt (chunksCount totalMessages : Nat)
    (options : Option SummaryOptions) (mergedSummaries : String) : String :=
  let styleInstructions := getStyleInstructions (effectiveStyle options)
  "You are a helpful assistant that creates a comprehensive summary from multiple partial summaries of a Telegram group chat.\n\n"
    ++ styleInstructions
    ++ "\n\nYou have received " ++ toString chunksCount
    ++ " partial summaries covering " ++ toString totalMessages
    ++ " total messages. Please create a unified, coherent summary that:\n- Combines all the important information from the partial summaries\n- Removes any redundancy or duplication\n- Maintains chronological order where relevant\n- Highlights the most important topics, decisions, and announcements\n- Preserves the key points from each partial summary\n\nCRITICAL: When referring to users in the summary, ALWAYS use their actual username or name exactly as shown in the partial summaries:\n    - If a user has a username (shown as @username), use \"@username\" in the summary exactly as shown - including any underscores that are part of the username (e.g., @user_name)\n    - If a user only has a first name (shown without @), use just the first name exactly as shown - including any underscores if present\n    - Never use generic terms like \"A user\", \"Another user\", \"Someone\", etc.\n    - Do NOT wrap usernames/names in brackets [], or add formatting around them\n    - Write usernames/names exactly as they appear: @username (with underscores if part of the username) or FirstName\n    - DO NOT use underscores for formatting/emphasis (like _text_ for underlines) - but keep underscores that are part of actual usernames/names\n\nPartial Summaries:\n"
    ++ mergedSummaries
    ++ "\n\nUnified Summary:"

/-- The Gateway as seen by the Summarizer: the outcome of the n-th
completion call (`generateContentWithFallback` invocation) of one
`summarizeMessages` invocation, as a function of that sequence number and
the prompt. -/
def CompleteFun : Type :=
  Nat → String → Except String String

/-- Embedding of `summarizeChunk`: an empty chunk returns a fixed text with
no completion call; otherwise one completion call on the chunk prompt.
Returns the outcome and the updated completion-call counter. -/
def summarizeChunk (complete : CompleteFun) (messages : List ChatMessage)
    (options : Option SummaryOptions) (calls : Nat) :
    Except String String × Nat :=
  if messages.length = 0 then (.ok "No messages in this chunk.", calls)
  else (complete calls (buildChunkPrompt messages options), calls + 1)

/-- The chunking loop of `summarizeLargeMessageSet`
(`for (let i = 0; i < messages.length; i += chunkSize) chunks.push(messages.slice(i, i + chunkSize))`),
with fuel for termination; `chunksOf` supplies `l.length` as fuel, which
suffices for any positive chunk size. -/
def chunksOfAux (cs : Nat) : Nat → List α → List (List α)
  | 0, _ => []
  | _ + 1, [] => []
  | fuel + 1, a :: as => (a :: as).take cs :: chunksOfAux cs fuel ((a :: as).drop cs)

/-- The chunk partition of `summarizeLargeMessageSet`. -/
def chunksOf (cs : Nat) (l : List α) : List (List α) :=
  chunksOfAux cs l.length l

/-- The sequential chunk-summarization loop of `summarizeLargeMessageSet`:
summarize each chunk in order through `summarizeChunk`, labelling the i-th
result `"[Chunk i+1/total - size messages]:\n..."`.  An error from any
chunk's completion call propagates (there is no `try`/`catch` here). -/
def summarizeChunksLoop (complete : CompleteFun)
    (options : Option SummaryOptions) (total : Nat) :
    List (List ChatMessage) → Nat → Nat → Except String (List String) × Nat
  | [], _, calls => (.ok [], calls)
  | chunk :: rest, i, calls =>
    match summarizeChunk complete chunk options calls with
    | (.error e, c) => (.error e, c)
    | (.ok s, c) =>
      let labeled := "[Chunk " ++ toString (i + 1) ++ "/" ++ toString total
        ++ " - " ++ toString chunk.length ++ " messages]:\n" ++ s
      match summarizeChunksLoop complete options total rest (i + 1) c with
      | (.error e, c2) => (.error e, c2)
      | (.ok ss, c2) => (.ok (labeled :: ss), c2)

/-- Embedding of `summarizeLargeMessageSet`: partition into chunks of `cs`,
summarize every chunk, return a single chunk summary as is, and otherwise
issue one merge completion call on the joined labelled summaries.  An
empty merge result is replaced by a generic header
(`result || 'Summary of N messages (processed in K chunks)'`); a merge
error propagates (no `try`/`catch` surrounds the merge call). -/
def summarizeLargeMessageSet (complete : CompleteFun)
    (messages : List ChatMessage) (options : Option SummaryOptions)
    (cs : Nat) (calls : Nat) : Except String String × Nat :=
  let totalMessages := messages.length
  let chunks := chunksOf cs messages
  match summarizeChunksLoop complete options chunks.length chunks 0 calls with
  | (.error e, c) => (.error e, c)
  | (.ok chunkSummaries, c) =>
    match chunkSummaries with
    | [s] => (.ok s, c)
    | _ =>
      let mergedSummaries := String.intercalate "\n\n---\n\n" chunkSummaries
      let mergePrompt :=
        buildMergePrompt chunks.length totalMessages options mergedSummaries
      match complete c mergePrompt with
      | .error e => (.error e, c + 1)
      | .ok result =>
        (.ok (if result = "" then
            "Summary of " ++ toString totalMessages ++ " messages (processed in "
              ++ toString chunks.length ++ " chunks)"
          else result), c + 1)

/-- The error re-wrapping of the `catch` block in `summarizeMessages`
(single-chunk path only): recognized failure classes are replaced by fixed
user-facing messages, anything else is rethrown unchanged. -/
def wrapSummarizeError (errorMessage : String) : String :=
  if strIncludes errorMessage "API_KEY_INVALID" || strIncludes errorMessage "401"
      || strIncludes errorMessage "Unauthorized" then
    "Invalid API key. Please check your Gemini API key and ensure it\x27s correct. You can update it using /update_api_key."
  else if strIncludes errorMessage "PERMISSION_DENIED"
      || strIncludes errorMessage "403" then
    "Permission denied. Your API key may not have access to the Gemini API. Please check your API key permissions."
  else if strIncludes errorMessage "QUOTA_EXCEEDED" || strIncludes errorMessage "429"
      || strIncludes errorMessage "RESOURCE_EXHAUSTED" then
    "API quota exceeded. All provided API keys have reached their rate limit. Please try again later or add more keys using /update_api_key."
  else if strIncludes errorMessage "timeout" || strIncludes errorMessage "TIMEOUT" then
    "Request timeout. The API request took too long. Please try again."
  else if strIncludes errorMessage "network" || strIncludes errorMessage "ECONNREFUSED"
      || strIncludes errorMessage "ENOTFOUND" then
    "Network error. Could not connect to the Gemini API. Please check your internet connection and try again."
  else errorMessage

/-- The sentinel returned by `summarizeMessages` for an empty input. -/
def noMessagesSentinel : String :=
  "No messages found in the specified time range."

/-- Embedding of `summarizeMessages`: empty input returns the sentinel with
no completion call; more than 1000 messages takes the hierarchical path
with `CHUNK_SIZE = 900`; otherwise one `summarizeChunk` call whose error,
if any, is re-wrapped by `wrapSummarizeError`.  The second component is the
number of completion calls issued. -/
def summarizeMessages (complete : CompleteFun) (messages : List ChatMessage)
    (options : Option SummaryOptions) : Except String String × Nat :=
  if messages.length = 0 then (.ok noMessagesSentinel, 0)
  else if messages.length > 1000 then
    summarizeLargeMessageSet complete messages options 900 0
  else
    match summarizeChunk complete messages options 0 with
    | (.ok s, c) => (.ok s, c)
    | (.error e, c) => (.error (wrapSummarizeError e), c)

/-! Derived notions used to state properties of `generateContentWithFallback`
traces, and small concrete scenarios used to instantiate them. -/

/-- Facts holding of every request event of a call made on a gateway with
`n` keys: the event's key is in range, both recorded states carry `n` keys
and have the rotation cursor on that key, a quota-class outcome is the only
one that changes the state, and it does so exactly by `markKeyAsExhausted`. -/
def EvTraceInv (n : Nat) (ev : CallEvent) : Prop :=
  ev.keyIndex < n ∧
  ev.stBefore.numKeys = n ∧
  ev.stAfter.numKeys = n ∧
  ev.stBefore.currentKeyIndex = ev.keyIndex ∧
  ev.stAfter.currentKeyIndex = ev.keyIndex ∧
  (evClass ev = some .quota →
    ev.stAfter = markKeyAsExhausted ev.stBefore ev.keyIndex) ∧
  (evClass ev ≠ some .quota → ev.stAfter = ev.stBefore)

/-- Two consecutive requests within the same outer attempt: the second one
tries the next model of the chain on the same key, and the first one was a
"continue" outcome — a model-unavailable error, or a quota error with no
other key left. -/
def StepInAttempt (ev ev' : CallEvent) : Prop :=
  ev'.attempt = ev.attempt ∧
  ev'.keyIndex = ev.keyIndex ∧
  ev'.modelIdx = ev.modelIdx + 1 ∧
  ev'.stBefore = ev.stAfter ∧
  ((evClass ev = some .quota ∧ hasAvailableKey ev.stAfter = false) ∨
    evClass ev = some .modelUnavailable)

/-- Two consecutive requests across an outer-attempt boundary: the second
one starts the next attempt at the top of the model chain on the key the
rotation scan picks from the state the first one left behind; the first one
ended its attempt — an invalid-key error, a quota error with a spare key,
or the model chain ran out. -/
def StepNewAttempt (ev ev' : CallEvent) : Prop :=
  ev'.attempt = ev.attempt + 1 ∧
  ev'.modelIdx = 0 ∧
  ev'.keyIndex = getNextAvailableKeyIndex ev.stAfter ∧
  ev'.stBefore =
    { ev.stAfter with currentKeyIndex := getNextAvailableKeyIndex ev.stAfter } ∧
  (evClass ev = some .invalidKey ∨
    (evClass ev = some .quota ∧ hasAvailableKey ev.stAfter = true) ∨
    ev.modelIdx + 1 = models.length)

/-- Any two consecutive requests of one call are related in one of the two
ways above. -/
def TraceStep (ev ev' : CallEvent) : Prop :=
  StepInAttempt ev ev' ∨ StepNewAttempt ev ev'

/-- A gateway state with two fresh keys and the cursor on the first. -/
def stTwoKeys : GatewayState :=
  { numKeys := 2, currentKeyIndex := 0, exhaustedKeys := [],
    exhaustionTimers := [], now := 0 }

/-- A gateway state with one key, no exhaustion, clock at five seconds. -/
def stIdle : GatewayState :=
  { numKeys := 1, currentKeyIndex := 0, exhaustedKeys := [],
    exhaustionTimers := [], now := 5 }

/-- A provider that always succeeds. -/
def genOk : Provider := fun _ _ _ => .ok "hi"

/-- The single event of `generateContentWithFallback genOk stTwoKeys`. -/
def evOkFirst : CallEvent :=
  ⟨0, 0, 0, "gemini-2.0-flash-001", .ok "hi", stTwoKeys, stTwoKeys⟩

/-- A provider that always fails with an invalid-key error. -/
def genAuth : Provider := fun _ _ _ => .error "API_KEY_INVALID"

/-- The first event of `generateContentWithFallback genAuth stTwoKeys`. -/
def evAuth0 : CallEvent :=
  ⟨0, 0, 0, "gemini-2.0-flash-001", .error "API_KEY_INVALID", stTwoKeys, stTwoKeys⟩

/-- The second event of `generateContentWithFallback genAuth stTwoKeys`:
the next outer attempt retries the same key. -/
def evAuth1 : CallEvent :=
  ⟨1, 0, 0, "gemini-2.0-flash-001", .error "API_KEY_INVALID", stTwoKeys, stTwoKeys⟩

/-- A provider whose first request hits a rate limit and whose later
requests succeed. -/
def genQuota : Provider := fun calls _ _ =>
  if calls = 0 then .error "429" else .ok "done"

/-- The state after the first key of `stTwoKeys` is marked exhausted. -/
def stFirstExhausted : GatewayState :=
  { numKeys := 2, currentKeyIndex := 0, exhaustedKeys := [0],
    exhaustionTimers := [(0, 60)], now := 0 }

/-- The first event of `generateContentWithFallback genQuota stTwoKeys`:
a quota failure on key 0, which gets marked exhausted. -/
def evQuota0 : CallEvent :=
  ⟨0, 0, 0, "gemini-2.0-flash-001", .error "429", stTwoKeys, stFirstExhausted⟩

/-- The second event of `generateContentWithFallback genQuota stTwoKeys`:
the next outer attempt rotates to key 1 and succeeds. -/
def evQuota1 : CallEvent :=
  ⟨1, 1, 0, "gemini-2.0-flash-001", .ok "done",
    { stFirstExhausted with currentKeyIndex := 1 },
    { stFirstExhausted with currentKeyIndex := 1 }⟩

/-- A provider that always fails with an unclassified error. -/
def genOther : Provider := fun _ _ _ => .error "PERMISSION_DENIED"

/-- The single event of `generateContentWithFallback genOther stTwoKeys`. -/
def evOther : CallEvent :=
  ⟨0, 0, 0, "gemini-2.0-flash-001", .error "PERMISSION_DENIED",
    stTwoKeys, stTwoKeys⟩

/-- A default chat message used for concrete summarizer inputs. -/
def msgDefault : ChatMessage :=
  ⟨none, none, "", ""⟩

/-- A concrete message list that takes the hierarchical path. -/
def manyMessages : List ChatMessage :=
  List.replicate 1001 msgDefault

/-- A completion function that always succeeds. -/
def completeAllOk : CompleteFun := fun _ _ => .ok "partial summary"

/-- A completion function whose first two calls (the chunk summaries of
`manyMessages`) succeed and whose third call (the merge) fails. -/
def completeMergeFails : CompleteFun := fun n _ =>
  if n < 2 then .ok "partial summary" else .error "merge failed"

/-! Theorems. -/

/-- C9: for the empty message list and every options value, `summarize`
returns the fixed "no messages found" sentinel string and makes zero
completion calls. -/
theorem summarize_empty_sentinel_no_calls :
    ∀ (complete : CompleteFun) (options : Option SummaryOptions),
      summarizeMessages complete [] options = (.ok noMessagesSentinel, 0) :=
  fun _ _ => rfl

/-- C10: a `GeminiService` built from a single string JSON-parses it; a JSON
array yields exactly its elements as the credential list, any other parse
result or a parse failure yields the one-element list holding the string
itself; and one client is created per credential, so the two lists always
have equal length. -/
theorem constructor_key_parsing (parse : String → Option JsonValue) (s : String) :
    (initialClients parse (.inl s)).length = (initialKeys parse (.inl s)).length ∧
    initialKeys parse (.inl s) =
      (match parse s with
        | some (.arr elems) => elems
        | _ => [.str s]) := by
  constructor
  · simp [initialClients]
  · cases h : parse s with
    | none => simp [initialKeys, h]
    | some v => cases v <;> simp [initialKeys, h]

/-- C6: a credential marked exhausted at time T is still exhausted strictly
before T+60, is eligible again once the clock reaches T+60 with no external
reset, marking it again while exhausted is a no-op (no second timer is
armed), and marking preserves the at-most-one-timer-per-credential
invariant. -/
theorem exhaustion_recovery_single_timer (st : GatewayState) (i : Nat)
    (hni : i ∉ st.exhaustedKeys)
    (htimers : ∀ p ∈ st.exhaustionTimers, p.1 ∈ st.exhaustedKeys) :
    i ∈ (markKeyAsExhausted st i).exhaustedKeys ∧
    (i, st.now + 60) ∈ (markKeyAsExhausted st i).exhaustionTimers ∧
    (∀ t, t < st.now + 60 →
      i ∈ (fireTimers (markKeyAsExhausted st i) t).exhaustedKeys) ∧
    i ∉ (fireTimers (markKeyAsExhausted st i) (st.now + 60)).exhaustedKeys ∧
    markKeyAsExhausted (markKeyAsExhausted st i) i = markKeyAsExhausted st i ∧
    ((st.exhaustionTimers.map Prod.fst).Nodup →
      ((markKeyAsExhausted st i).exhaustionTimers.map Prod.fst).Nodup) := by
  have hmark : markKeyAsExhausted st i =
      { st with
        exhaustedKeys := i :: st.exhaustedKeys
        exhaustionTimers := (i, st.now + 60) :: st.exhaustionTimers } := by
    simp [markKeyAsExhausted, hni]
  rw [hmark]
  refine ⟨List.mem_cons_self _ _, List.mem_cons_self _ _, ?_, ?_, ?_, ?_⟩
  · intro t ht
    simp only [fireTimers, List.mem_filter]
    refine ⟨List.mem_cons_self _ _, ?_⟩
    simp only [Bool.not_eq_true', List.any_eq_false]
    intro p hp
    rcases List.mem_cons.mp hp with h | h
    · subst h
      have hnot : ¬ (st.now + 60 ≤ t) := by omega
      simp [hnot]
    · have hp1 : p.1 ≠ i := fun hpi => hni (hpi ▸ htimers p h)
      simp [hp1]
  · intro hmem
    simp only [fireTimers, List.mem_filter] at hmem
    have := hmem.2
    simp only [Bool.not_eq_true', List.any_eq_false] at this
    have h0 := this (i, st.now + 60) (List.mem_cons_self _ _)
    simp at h0
  · simp [markKeyAsExhausted]
  · intro hnd
    simp only [List.map_cons, List.nodup_cons]
    refine ⟨?_, hnd⟩
    intro hmem
    rcases List.mem_map.mp hmem with ⟨p, hp, hfst⟩
    exact hni (hfst ▸ htimers p hp)

/-- C6 witness: marking key 0 of `stIdle` arms one timer for 65, the key is
still exhausted at 64, recovered at 65, and re-marking it is a no-op. -/
theorem exhaustion_recovery_single_timer_witness :
    (0 ∉ stIdle.exhaustedKeys) ∧
    0 ∈ (markKeyAsExhausted stIdle 0).exhaustedKeys ∧
    (0, stIdle.now + 60) ∈ (markKeyAsExhausted stIdle 0).exhaustionTimers ∧
    0 ∈ (fireTimers (markKeyAsExhausted stIdle 0) 64).exhaustedKeys ∧
    0 ∉ (fireTimers (markKeyAsExhausted stIdle 0) (stIdle.now + 60)).exhaustedKeys ∧
    markKeyAsExhausted (markKeyAsExhausted stIdle 0) 0 = markKeyAsExhausted stIdle 0 := by
  have h := exhaustion_recovery_single_timer stIdle 0 (by decide) (by decide)
  exact ⟨by decide, h.1, h.2.1, h.2.2.1 64 (by decide), h.2.2.2.1, h.2.2.2.2.1⟩

/-- `chunksOfAux` on the empty list is the empty partition. -/
theorem chunksOfAux_nil (cs fuel : Nat) :
    chunksOfAux cs fuel ([] : List α) = [] := by
  cases fuel <;> rfl

/-- Concatenating the chunks rebuilds the input list. -/
theorem chunksOfAux_flatten (cs : Nat) (hcs : 1 ≤ cs) :
    ∀ (fuel : Nat) (l : List α), l.length ≤ fuel →
      (chunksOfAux cs fuel l).flatten = l := by
  intro fuel
  induction fuel with
  | zero =>
    intro l hl
    have : l = [] := List.eq_nil_of_length_eq_zero (Nat.le_zero.mp hl)
    subst this
    rfl
  | succ n ih =>
    intro l hl
    cases l with
    | nil => rfl
    | cons a as =>
      simp only [chunksOfAux, List.flatten_cons]
      rw [ih]
      · exact List.take_append_drop cs (a :: as)
      · rw [List.length_drop]
        simp only [List.length_cons] at hl ⊢
        omega

/-- Every chunk has at most `cs` elements. -/
theorem chunksOfAux_sizes (cs : Nat) :
    ∀ (fuel : Nat) (l : List α), ∀ c ∈ chunksOfAux cs fuel l, c.length ≤ cs := by
  intro fuel
  induction fuel with
  | zero => intro l c hc; simp [chunksOfAux] at hc
  | succ n ih =>
    intro l c hc
    cases l with
    | nil => simp [chunksOfAux] at hc
    | cons a as =>
      simp only [chunksOfAux] at hc
      rcases List.mem_cons.mp hc with h | h
      · subst h
        rw [List.length_take]
        exact Nat.min_le_left _ _
      · exact ih _ c h

/-- Every chunk of a positive chunk size is nonempty. -/
theorem chunksOfAux_ne_nil (cs : Nat) (hcs : 1 ≤ cs) :
    ∀ (fuel : Nat) (l : List α), ∀ c ∈ chunksOfAux cs fuel l, c ≠ [] := by
  intro fuel
  induction fuel with
  | zero => intro l c hc; simp [chunksOfAux] at hc
  | succ n ih =>
    intro l c hc
    cases l with
    | nil => simp [chunksOfAux] at hc
    | cons a as =>
      simp only [chunksOfAux] at hc
      rcases List.mem_cons.mp hc with h | h
      · subst h
        obtain ⟨m, rfl⟩ := Nat.exists_eq_add_of_le hcs
        simp [List.take_cons]
      · exact ih _ c h

/-- The number of chunks of a nonempty list is `(len - 1) / cs + 1`. -/
theorem chunksOfAux_length (cs : Nat) (hcs : 1 ≤ cs) :
    ∀ (fuel : Nat) (l : List α), l.length ≤ fuel → l ≠ [] →
      (chunksOfAux cs fuel l).length = (l.length - 1) / cs + 1 := by
  intro fuel
  induction fuel with
  | zero =>
    intro l hl hne
    exact absurd (List.eq_nil_of_length_eq_zero (Nat.le_zero.mp hl)) hne
  | succ n ih =>
    intro l hl hne
    cases l with
    | nil => exact absurd rfl hne
    | cons a as =>
      simp only [chunksOfAux, List.length_cons]
      by_cases hle : (a :: as).length ≤ cs
      · have hdrop : (a :: as).drop cs = [] := by
          rw [← List.length_eq_zero, List.length_drop]
          omega
        rw [hdrop, chunksOfAux_nil]
        simp only [List.length_cons] at hle
        show (1 : Nat) = (as.length + 1 - 1) / cs + 1
        rw [Nat.div_eq_of_lt (by omega)]
      · have hlen : ((a :: as).drop cs).length = (a :: as).length - cs := by
          rw [List.length_drop]
        have hne' : (a :: as).drop cs ≠ [] := by
          intro h
          rw [h] at hlen
          simp only [List.length_nil, List.length_cons] at hlen
          simp only [List.length_cons] at hle
          omega
        rw [ih _ (by rw [hlen]; simp only [List.length_cons] at hl ⊢; omega) hne']
        rw [hlen]
        simp only [List.length_cons] at hle ⊢
        have h2 : (as.length + 1) - 1 = ((as.length + 1) - cs - 1) + cs := by omega
        rw [h2, Nat.add_div_right _ (by omega)]

/-- The chunk partition of a nonempty list has `(len - 1) / cs + 1` chunks. -/
theorem chunksOf_length (cs : Nat) (hcs : 1 ≤ cs) (l : List α) (hne : l ≠ []) :
    (chunksOf cs l).length = (l.length - 1) / cs + 1 :=
  chunksOfAux_length cs hcs l.length l le_rfl hne

/-- C7: for every message list longer than 1000, the hierarchical chunk
partition is order-preserving and size-bounded: every chunk has at most 900
messages, and concatenating the chunks in order reconstructs the original
list exactly (so no message is split or lost across a boundary). -/
theorem chunk_partition_sound (msgs : List ChatMessage)
    (_hbig : 1000 < msgs.length) :
    (∀ c ∈ chunksOf 900 msgs, c.length ≤ 900) ∧
    (chunksOf 900 msgs).flatten = msgs :=
  ⟨fun c hc => chunksOfAux_sizes 900 msgs.length msgs c hc,
    chunksOfAux_flatten 900 (by omega) msgs.length msgs le_rfl⟩

/-- C7 witness: the partition of a concrete 1001-message list rebuilds it. -/
theorem chunk_partition_sound_witness :
    1000 < manyMessages.length ∧
    (chunksOf 900 manyMessages).flatten = manyMessages := by
  have hlen : manyMessages.length = 1001 := by
    unfold manyMessages
    rw [List.length_replicate]
  exact ⟨by omega, (chunk_partition_sound manyMessages (by omega)).2⟩

/-- `prepend` prepends the event. -/
theorem ModelLoopResult.prepend_evs (ev : CallEvent) (msg : String)
    (r : ModelLoopResult) : (r.prepend ev msg).evs = ev :: r.evs := by
  cases r <;> rfl

/-- `prepend` keeps the final state. -/
theorem ModelLoopResult.prepend_st (ev : CallEvent) (msg : String)
    (r : ModelLoopResult) : (r.prepend ev msg).st = r.st := by
  cases r <;> rfl

/-- Marking never changes the key count. -/
theorem markKeyAsExhausted_numKeys (st : GatewayState) (i : Nat) :
    (markKeyAsExhausted st i).numKeys = st.numKeys := by
  unfold markKeyAsExhausted
  split <;> rfl

/-- Marking never moves the rotation cursor. -/
theorem markKeyAsExhausted_currentKeyIndex (st : GatewayState) (i : Nat) :
    (markKeyAsExhausted st i).currentKeyIndex = st.currentKeyIndex := by
  unfold markKeyAsExhausted
  split <;> rfl

/-- The marked key is exhausted afterwards. -/
theorem markKeyAsExhausted_mem (st : GatewayState) (i : Nat) :
    i ∈ (markKeyAsExhausted st i).exhaustedKeys := by
  unfold markKeyAsExhausted
  split
  · assumption
  · exact List.mem_cons_self _ _

/-- A key returned by the scanning loop is in range and not exhausted. -/
theorem scanAvailableKey_some (exh : List Nat) (n : Nat) (hn : 0 < n) :
    ∀ (fuel cur res : Nat), cur < n →
      scanAvailableKey exh n fuel cur = some res → res < n ∧ res ∉ exh := by
  intro fuel
  induction fuel with
  | zero => intro cur res _ h; simp [scanAvailableKey] at h
  | succ f ih =>
    intro cur res hcur h
    simp only [scanAvailableKey] at h
    by_cases hc : cur ∈ exh
    · rw [if_pos hc] at h
      exact ih _ res (Nat.mod_lt _ hn) h
    · rw [if_neg hc] at h
      injection h with h
      exact ⟨h ▸ hcur, h ▸ hc⟩

/-- If some position reachable within the fuel is not exhausted, the
scanning loop finds one. -/
theorem scanAvailableKey_finds (exh : List Nat) (n : Nat) (hn : 0 < n) :
    ∀ (fuel cur : Nat), cur < n →
      (∃ j, j < fuel ∧ (cur + j) % n ∉ exh) →
      ∃ res, scanAvailableKey exh n fuel cur = some res := by
  intro fuel
  induction fuel with
  | zero =>
    intro cur _ h
    obtain ⟨j, hj, _⟩ := h
    omega
  | succ f ih =>
    intro cur hcur h
    obtain ⟨j, hj, hmem⟩ := h
    by_cases hc : cur ∈ exh
    · have hj0 : j ≠ 0 := by
        intro h0
        subst h0
        rw [Nat.add_zero, Nat.mod_eq_of_lt hcur] at hmem
        exact hmem hc
      obtain ⟨j', rfl⟩ : ∃ j', j = j' + 1 := ⟨j - 1, by omega⟩
      have hmod : ((cur + 1) % n + j') % n = (cur + (j' + 1)) % n := by
        rw [Nat.mod_add_mod]
        have : cur + 1 + j' = cur + (j' + 1) := by omega
        rw [this]
      obtain ⟨res, hres⟩ := ih ((cur + 1) % n) (Nat.mod_lt _ hn)
        ⟨j', by omega, by rw [hmod]; exact hmem⟩
      refine ⟨res, ?_⟩
      simp only [scanAvailableKey]
      rw [if_pos hc]
      exact hres
    · refine ⟨cur, ?_⟩
      simp only [scanAvailableKey]
      rw [if_neg hc]

/-- Unfolding of `hasAvailableKey`. -/
theorem hasAvailableKey_exists {st : GatewayState}
    (h : hasAvailableKey st = true) :
    ∃ i, i < st.numKeys ∧ i ∉ st.exhaustedKeys := by
  unfold hasAvailableKey at h
  simpa only [List.any_eq_true, List.mem_range, decide_eq_true_eq] using h

/-- The rotation scan stays in range. -/
theorem getNextAvailableKeyIndex_lt (st : GatewayState) (hn : 0 < st.numKeys)
    (hcur : st.currentKeyIndex < st.numKeys) :
    getNextAvailableKeyIndex st < st.numKeys := by
  unfold getNextAvailableKeyIndex
  cases h : scanAvailableKey st.exhaustedKeys st.numKeys st.numKeys
      st.currentKeyIndex with
  | none => simpa using hcur
  | some res =>
    simp only [Option.getD_some]
    exact (scanAvailableKey_some st.exhaustedKeys st.numKeys hn st.numKeys
      st.currentKeyIndex res hcur h).1

/-- When some key is available, the rotation scan picks an available key. -/
theorem getNextAvailableKeyIndex_available (st : GatewayState)
    (hn : 0 < st.numKeys) (hcur : st.currentKeyIndex < st.numKeys)
    (hav : hasAvailableKey st = true) :
    getNextAvailableKeyIndex st ∉ st.exhaustedKeys := by
  obtain ⟨i, hi, hmem⟩ := hasAvailableKey_exists hav
  have hj : ∃ j, j < st.numKeys ∧
      (st.currentKeyIndex + j) % st.numKeys ∉ st.exhaustedKeys := by
    by_cases hge : st.currentKeyIndex ≤ i
    · refine ⟨i - st.currentKeyIndex, by omega, ?_⟩
      have harg : st.currentKeyIndex + (i - st.currentKeyIndex) = i := by omega
      rw [harg, Nat.mod_eq_of_lt hi]
      exact hmem
    · refine ⟨i + st.numKeys - st.currentKeyIndex, by omega, ?_⟩
      have harg : st.currentKeyIndex + (i + st.numKeys - st.currentKeyIndex) =
          i + st.numKeys := by omega
      rw [harg, Nat.add_mod_right, Nat.mod_eq_of_lt hi]
      exact hmem
  obtain ⟨res, hres⟩ := scanAvailableKey_finds st.exhaustedKeys st.numKeys hn
    st.numKeys st.currentKeyIndex hcur hj
  unfold getNextAvailableKeyIndex
  rw [hres]
  exact (scanAvailableKey_some st.exhaustedKeys st.numKeys hn st.numKeys
    st.currentKeyIndex res hcur hres).2

/-- When the cursor's key is itself available, the rotation scan keeps it. -/
theorem getNextAvailableKeyIndex_self (st : GatewayState)
    (h : st.currentKeyIndex ∉ st.exhaustedKeys) :
    getNextAvailableKeyIndex st = st.currentKeyIndex := by
  unfold getNextAvailableKeyIndex
  cases hn : st.numKeys with
  | zero => rfl
  | succ m =>
    simp only [scanAvailableKey]
    rw [if_neg h]
    rfl

/-- Per-event facts about one run of the model loop: every event belongs to
attempt `a` on key `k`, records states with the same key count and the
cursor on `k`, has its chain position inside the window `[mIdx, mIdx + |ms|)`,
and changes the state exactly when (and how) a quota error does. -/
theorem tryModels_events (gen : Provider) (a k n : Nat) :
    ∀ (ms : List String) (mIdx : Nat) (st : GatewayState) (calls : Nat),
      st.numKeys = n → st.currentKeyIndex = k →
      ∀ ev ∈ (tryModels gen a k mIdx st calls ms).evs,
        ev.attempt = a ∧ ev.keyIndex = k ∧ ev.stBefore.numKeys = n ∧
        ev.stAfter.numKeys = n ∧ ev.stBefore.currentKeyIndex = k ∧
        ev.stAfter.currentKeyIndex = k ∧ mIdx ≤ ev.modelIdx ∧
        ev.modelIdx < mIdx + ms.length ∧
        (evClass ev = some .quota →
          ev.stAfter = markKeyAsExhausted ev.stBefore ev.keyIndex) ∧
        (evClass ev ≠ some .quota → ev.stAfter = ev.stBefore) := by
  intro ms
  induction ms with
  | nil =>
    intro mIdx st calls _ _ ev hev
    simp [tryModels, ModelLoopResult.evs] at hev
  | cons model rest ih =>
    intro mIdx st calls h1 h2 ev hev
    cases hgen : gen calls k model with
    | ok text =>
      simp only [tryModels, hgen, ModelLoopResult.evs] at hev
      rcases List.mem_cons.mp hev with h | h
      · subst h
        refine ⟨rfl, rfl, h1, h1, h2, h2, le_rfl, by simp, ?_, fun _ => rfl⟩
        intro hq
        simp [evClass] at hq
      · simp at h
    | error msg =>
      cases hcls : classifyError msg with
      | quota =>
        simp only [tryModels, hgen, hcls] at hev
        by_cases hav : hasAvailableKey (markKeyAsExhausted st k)
        · rw [if_pos hav] at hev
          simp only [ModelLoopResult.evs] at hev
          rcases List.mem_cons.mp hev with h | h
          · subst h
            refine ⟨rfl, rfl, h1, ?_, h2, ?_, le_rfl, by simp, fun _ => rfl, ?_⟩
            · rw [markKeyAsExhausted_numKeys]; exact h1
            · rw [markKeyAsExhausted_currentKeyIndex]; exact h2
            · intro h
              exact absurd (by simp [evClass, hcls]) h
          · simp at h
        · rw [if_neg hav, ModelLoopResult.prepend_evs] at hev
          rcases List.mem_cons.mp hev with h | h
          · subst h
            refine ⟨rfl, rfl, h1, ?_, h2, ?_, le_rfl, by simp, fun _ => rfl, ?_⟩
            · rw [markKeyAsExhausted_numKeys]; exact h1
            · rw [markKeyAsExhausted_currentKeyIndex]; exact h2
            · intro h
              exact absurd (by simp [evClass, hcls]) h
          · have := ih (mIdx + 1) (markKeyAsExhausted st k) (calls + 1)
              (by rw [markKeyAsExhausted_numKeys]; exact h1)
              (by rw [markKeyAsExhausted_currentKeyIndex]; exact h2) ev h
            refine ⟨this.1, this.2.1, this.2.2.1, this.2.2.2.1, this.2.2.2.2.1,
              this.2.2.2.2.2.1, by
                have := this.2.2.2.2.2.2.1
                omega, by
                have := this.2.2.2.2.2.2.2.1
                simp only [List.length_cons]
                omega, this.2.2.2.2.2.2.2.2.1, this.2.2.2.2.2.2.2.2.2⟩
      | modelUnavailable =>
        simp only [tryModels, hgen, hcls, ModelLoopResult.prepend_evs] at hev
        rcases List.mem_cons.mp hev with h | h
        · subst h
          refine ⟨rfl, rfl, h1, h1, h2, h2, le_rfl, by simp, ?_, fun _ => rfl⟩
          intro hq
          simp [evClass, hcls] at hq
        · have := ih (mIdx + 1) st (calls + 1) h1 h2 ev h
          refine ⟨this.1, this.2.1, this.2.2.1, this.2.2.2.1, this.2.2.2.2.1,
            this.2.2.2.2.2.1, by
              have := this.2.2.2.2.2.2.1
              omega, by
              have := this.2.2.2.2.2.2.2.1
              simp only [List.length_cons]
              omega, this.2.2.2.2.2.2.2.2.1, this.2.2.2.2.2.2.2.2.2⟩
      | invalidKey =>
        simp only [tryModels, hgen, hcls, ModelLoopResult.evs] at hev
        rcases List.mem_cons.mp hev with h | h
        · subst h
          refine ⟨rfl, rfl, h1, h1, h2, h2, le_rfl, by simp, ?_, fun _ => rfl⟩
          intro hq
          simp [evClass, hcls] at hq
        · simp at h
      | other =>
        simp only [tryModels, hgen, hcls, ModelLoopResult.evs] at hev
        rcases List.mem_cons.mp hev with h | h
        · subst h
          refine ⟨rfl, rfl, h1, h1, h2, h2, le_rfl, by simp, ?_, fun _ => rfl⟩
          intro hq
          simp [evClass, hcls] at hq
        · simp at h

/-- `getLast?` of a cons with nonempty tail is `getLast?` of the tail. -/
theorem getLast?_cons_of_ne_nil {α : Type _} (a : α) {l : List α} (h : l ≠ []) :
    (a :: l).getLast? = l.getLast? := by
  cases l with
  | nil => exact absurd rfl h
  | cons b l' => exact List.getLast?_cons_cons

/-- Inversion of `prepend` producing a `continueOuter`. -/
theorem ModelLoopResult.prepend_continueOuter_inv {ev : CallEvent} {msg : String}
    {r : ModelLoopResult} {le : Option String} {evs : List CallEvent}
    {st2 : GatewayState} {c : Nat}
    (h : r.prepend ev msg = .continueOuter le evs st2 c) :
    ∃ le₀ evs₀, r = .continueOuter le₀ evs₀ st2 c ∧ evs = ev :: evs₀ := by
  cases r with
  | success t' evs' st' c' => cases h
  | thrown e' evs' st' c' => cases h
  | continueOuter le' evs' st' c' =>
    injection h with h1 h2 h3 h4
    exact ⟨le', evs', by rw [h3, h4], h2.symm⟩

/-- Inversion of `prepend` producing a `success`. -/
theorem ModelLoopResult.prepend_success_inv {ev : CallEvent} {msg : String}
    {r : ModelLoopResult} {t : String} {evs : List CallEvent}
    {st2 : GatewayState} {c : Nat}
    (h : r.prepend ev msg = .success t evs st2 c) :
    ∃ evs₀, r = .success t evs₀ st2 c ∧ evs = ev :: evs₀ := by
  cases r with
  | continueOuter le' evs' st' c' => cases h
  | thrown e' evs' st' c' => cases h
  | success t' evs' st' c' =>
    injection h with h1 h2 h3 h4
    exact ⟨evs', by rw [h1, h3, h4], h2.symm⟩

/-- Inversion of `prepend` producing a `thrown`. -/
theorem ModelLoopResult.prepend_thrown_inv {ev : CallEvent} {msg : String}
    {r : ModelLoopResult} {e : String} {evs : List CallEvent}
    {st2 : GatewayState} {c : Nat}
    (h : r.prepend ev msg = .thrown e evs st2 c) :
    ∃ evs₀, r = .thrown e evs₀ st2 c ∧ evs = ev :: evs₀ := by
  cases r with
  | continueOuter le' evs' st' c' => cases h
  | success t' evs' st' c' => cases h
  | thrown e' evs' st' c' =>
    injection h with h1 h2 h3 h4
    exact ⟨evs', by rw [h1, h3, h4], h2.symm⟩

/-- On a nonempty chain the model loop issues a first request immediately:
it belongs to attempt `a` on key `k`, uses chain position `mIdx`, and its
before-state is the loop's input state. -/
theorem tryModels_head (gen : Provider) (a k : Nat) (model : String)
    (rest : List String) (mIdx : Nat) (st : GatewayState) (calls : Nat) :
    ∃ ev evs',
      (tryModels gen a k mIdx st calls (model :: rest)).evs = ev :: evs' ∧
      ev.attempt = a ∧ ev.keyIndex = k ∧ ev.modelIdx = mIdx ∧ ev.stBefore = st := by
  cases hgen : gen calls k model with
  | ok text =>
    refine ⟨⟨a, k, mIdx, model, .ok text, st, st⟩, [], ?_, rfl, rfl, rfl, rfl⟩
    simp only [tryModels, hgen, ModelLoopResult.evs]
  | error msg =>
    cases hcls : classifyError msg with
    | quota =>
      by_cases hav : hasAvailableKey (markKeyAsExhausted st k)
      · refine ⟨⟨a, k, mIdx, model, .error msg, st, markKeyAsExhausted st k⟩, [],
          ?_, rfl, rfl, rfl, rfl⟩
        simp only [tryModels, hgen, hcls]
        rw [if_pos hav]
        rfl
      · refine ⟨⟨a, k, mIdx, model, .error msg, st, markKeyAsExhausted st k⟩,
          (tryModels gen a k (mIdx + 1) (markKeyAsExhausted st k) (calls + 1)
            rest).evs, ?_, rfl, rfl, rfl, rfl⟩
        simp only [tryModels, hgen, hcls]
        rw [if_neg hav, ModelLoopResult.prepend_evs]
    | modelUnavailable =>
      refine ⟨⟨a, k, mIdx, model, .error msg, st, st⟩,
        (tryModels gen a k (mIdx + 1) st (calls + 1) rest).evs, ?_, rfl, rfl, rfl, rfl⟩
      simp only [tryModels, hgen, hcls]
      rw [ModelLoopResult.prepend_evs]
    | invalidKey =>
      refine ⟨⟨a, k, mIdx, model, .error msg, st, st⟩, [], ?_, rfl, rfl, rfl, rfl⟩
      simp only [tryModels, hgen, hcls, ModelLoopResult.evs]
    | other =>
      refine ⟨⟨a, k, mIdx, model, .error msg, st, st⟩, [], ?_, rfl, rfl, rfl, rfl⟩
      simp only [tryModels, hgen, hcls, ModelLoopResult.evs]

/-- Within one run of the model loop consecutive events are `StepInAttempt`
steps: the loop only issues a further request after a model-unavailable
error, or after a quota error that left no key available. -/
theorem tryModels_chain (gen : Provider) (a k : Nat) :
    ∀ (ms : List String) (mIdx : Nat) (st : GatewayState) (calls : Nat),
      (tryModels gen a k mIdx st calls ms).evs.Chain' StepInAttempt := by
  intro ms
  induction ms with
  | nil => intro mIdx st calls; exact List.chain'_nil
  | cons model rest ih =>
    intro mIdx st calls
    cases hgen : gen calls k model with
    | ok text =>
      simp only [tryModels, hgen, ModelLoopResult.evs]
      exact List.chain'_singleton _
    | error msg =>
      cases hcls : classifyError msg with
      | quota =>
        by_cases hav : hasAvailableKey (markKeyAsExhausted st k)
        · simp only [tryModels, hgen, hcls]
          rw [if_pos hav]
          exact List.chain'_singleton _
        · simp only [tryModels, hgen, hcls]
          rw [if_neg hav, ModelLoopResult.prepend_evs]
          refine List.chain'_cons'.mpr
            ⟨?_, ih (mIdx + 1) (markKeyAsExhausted st k) (calls + 1)⟩
          intro y hy
          cases rest with
          | nil => simp [tryModels, ModelLoopResult.evs] at hy
          | cons m2 r2 =>
            obtain ⟨ev1, evs', heq, ha, hk, hm, hsb⟩ :=
              tryModels_head gen a k m2 r2 (mIdx + 1)
                (markKeyAsExhausted st k) (calls + 1)
            rw [heq] at hy
            simp only [List.head?_cons, Option.mem_def, Option.some_inj] at hy
            subst hy
            refine ⟨ha, hk, hm, hsb, Or.inl ⟨?_, ?_⟩⟩
            · simp [evClass, hcls]
            · exact Bool.eq_false_iff.mpr hav
      | modelUnavailable =>
        simp only [tryModels, hgen, hcls]
        rw [ModelLoopResult.prepend_evs]
        refine List.chain'_cons'.mpr ⟨?_, ih (mIdx + 1) st (calls + 1)⟩
        intro y hy
        cases rest with
        | nil => simp [tryModels, ModelLoopResult.evs] at hy
        | cons m2 r2 =>
          obtain ⟨ev1, evs', heq, ha, hk, hm, hsb⟩ :=
            tryModels_head gen a k m2 r2 (mIdx + 1) st (calls + 1)
          rw [heq] at hy
          simp only [List.head?_cons, Option.mem_def, Option.some_inj] at hy
          subst hy
          refine ⟨ha, hk, hm, hsb, Or.inr ?_⟩
          simp [evClass, hcls]
      | invalidKey =>
        simp only [tryModels, hgen, hcls, ModelLoopResult.evs]
        exact List.chain'_singleton _
      | other =>
        simp only [tryModels, hgen, hcls, ModelLoopResult.evs]
        exact List.chain'_singleton _

/-- Inversion of a model loop ending in "fall through to the next outer
attempt": its final state is the last event's after-state (or the input
state if there was no event), and the last event is an error that either was
an invalid-key break, a quota break with a spare key, or sat at the end of
the model chain. -/
theorem tryModels_continueOuter (gen : Provider) (a k : Nat) :
    ∀ (ms : List String) (mIdx : Nat) (st : GatewayState) (calls : Nat)
      (le : Option String) (evs : List CallEvent) (st2 : GatewayState) (c : Nat),
      mIdx + ms.length = models.length →
      tryModels gen a k mIdx st calls ms = .continueOuter le evs st2 c →
      (evs = [] → st2 = st) ∧
      (∀ ev, evs.getLast? = some ev →
        st2 = ev.stAfter ∧
        (∃ m, ev.outcome = .error m) ∧
        evClass ev ≠ some .other ∧
        (evClass ev = some .invalidKey ∨
          (evClass ev = some .quota ∧ hasAvailableKey ev.stAfter = true) ∨
          ev.modelIdx + 1 = models.length)) := by
  intro ms
  induction ms with
  | nil =>
    intro mIdx st calls le evs st2 c _ h
    simp only [tryModels] at h
    injection h with h1 h2 h3 h4
    subst h2
    subst h3
    refine ⟨fun _ => rfl, ?_⟩
    intro ev hev
    simp at hev
  | cons model rest ih =>
    intro mIdx st calls le evs st2 c hlen h
    cases hgen : gen calls k model with
    | ok text =>
      simp only [tryModels, hgen] at h
      cases h
    | error msg =>
      cases hcls : classifyError msg with
      | quota =>
        simp only [tryModels, hgen, hcls] at h
        by_cases hav : hasAvailableKey (markKeyAsExhausted st k)
        · rw [if_pos hav] at h
          injection h with h1 h2 h3 h4
          subst h2
          subst h3
          refine ⟨fun hc => absurd hc (List.cons_ne_nil _ _), ?_⟩
          intro ev hev
          simp only [List.getLast?_singleton, Option.some_inj] at hev
          subst hev
          refine ⟨rfl, ⟨msg, rfl⟩, ?_, Or.inr (Or.inl ⟨?_, hav⟩)⟩
          · simp [evClass, hcls]
          · simp [evClass, hcls]
        · rw [if_neg hav] at h
          obtain ⟨le₀, evs₀, hr, hevs⟩ := ModelLoopResult.prepend_continueOuter_inv h
          subst hevs
          have hlen' : (mIdx + 1) + rest.length = models.length := by
            simp only [List.length_cons] at hlen
            omega
          have ihres := ih (mIdx + 1) (markKeyAsExhausted st k) (calls + 1)
            le₀ evs₀ st2 c hlen' hr
          refine ⟨fun hc => absurd hc (List.cons_ne_nil _ _), ?_⟩
          intro ev hev
          cases hevs₀ : evs₀ with
          | nil =>
            subst hevs₀
            simp only [List.getLast?_singleton, Option.some_inj] at hev
            subst hev
            have hst2 : st2 = markKeyAsExhausted st k := ihres.1 rfl
            have hrest : rest = [] := by
              cases rest with
              | nil => rfl
              | cons m2 r2 =>
                obtain ⟨ev1, evs', heq, _, _, _, _⟩ :=
                  tryModels_head gen a k m2 r2 (mIdx + 1)
                    (markKeyAsExhausted st k) (calls + 1)
                rw [hr] at heq
                simp only [ModelLoopResult.evs] at heq
                cases heq
            refine ⟨hst2, ⟨msg, rfl⟩, ?_, Or.inr (Or.inr ?_)⟩
            · simp [evClass, hcls]
            · subst hrest
              simp only [List.length_cons, List.length_nil] at hlen
              show mIdx + 1 = models.length
              omega
          | cons e0 es0 =>
            subst hevs₀
            rw [getLast?_cons_of_ne_nil _ (List.cons_ne_nil e0 es0)] at hev
            exact ihres.2 ev hev
      | modelUnavailable =>
        simp only [tryModels, hgen, hcls] at h
        obtain ⟨le₀, evs₀, hr, hevs⟩ := ModelLoopResult.prepend_continueOuter_inv h
        subst hevs
        have hlen' : (mIdx + 1) + rest.length = models.length := by
          simp only [List.length_cons] at hlen
          omega
        have ihres := ih (mIdx + 1) st (calls + 1) le₀ evs₀ st2 c hlen' hr
        refine ⟨fun hc => absurd hc (List.cons_ne_nil _ _), ?_⟩
        intro ev hev
        cases hevs₀ : evs₀ with
        | nil =>
          subst hevs₀
          simp only [List.getLast?_singleton, Option.some_inj] at hev
          subst hev
          have hst2 : st2 = st := ihres.1 rfl
          have hrest : rest = [] := by
            cases rest with
            | nil => rfl
            | cons m2 r2 =>
              obtain ⟨ev1, evs', heq, _, _, _, _⟩ :=
                tryModels_head gen a k m2 r2 (mIdx + 1) st (calls + 1)
              rw [hr] at heq
              simp only [ModelLoopResult.evs] at heq
              cases heq
          refine ⟨hst2, ⟨msg, rfl⟩, ?_, Or.inr (Or.inr ?_)⟩
          · simp [evClass, hcls]
          · subst hrest
            simp only [List.length_cons, List.length_nil] at hlen
            show mIdx + 1 = models.length
            omega
        | cons e0 es0 =>
          subst hevs₀
          rw [getLast?_cons_of_ne_nil _ (List.cons_ne_nil e0 es0)] at hev
          exact ihres.2 ev hev
      | invalidKey =>
        simp only [tryModels, hgen, hcls] at h
        injection h with h1 h2 h3 h4
        subst h2
        subst h3
        refine ⟨fun hc => absurd hc (List.cons_ne_nil _ _), ?_⟩
        intro ev hev
        simp only [List.getLast?_singleton, Option.some_inj] at hev
        subst hev
        refine ⟨rfl, ⟨msg, rfl⟩, ?_, Or.inl ?_⟩
        · simp [evClass, hcls]
        · simp [evClass, hcls]
      | other =>
        simp only [tryModels, hgen, hcls] at h
        cases h

/-- Inversion of a model loop ending in success: the last event is the
successful request and the loop's final state is its (unchanged) state;
the returned text is the response text with the empty string normalized. -/
theorem tryModels_success (gen : Provider) (a k : Nat) :
    ∀ (ms : List String) (mIdx : Nat) (st : GatewayState) (calls : Nat)
      (t : String) (evs : List CallEvent) (st2 : GatewayState) (c : Nat),
      tryModels gen a k mIdx st calls ms = .success t evs st2 c →
      ∃ ev s, evs.getLast? = some ev ∧ ev.outcome = .ok s ∧
        t = (if s = "" then "Generated summary (no text returned)" else s) ∧
        st2 = ev.stAfter := by
  intro ms
  induction ms with
  | nil =>
    intro mIdx st calls t evs st2 c h
    simp only [tryModels] at h
    cases h
  | cons model rest ih =>
    intro mIdx st calls t evs st2 c h
    cases hgen : gen calls k model with
    | ok text =>
      simp only [tryModels, hgen] at h
      injection h with h1 h2 h3 h4
      subst h1
      subst h2
      subst h3
      exact ⟨_, text, List.getLast?_singleton _, rfl, rfl, rfl⟩
    | error msg =>
      cases hcls : classifyError msg with
      | quota =>
        simp only [tryModels, hgen, hcls] at h
        by_cases hav : hasAvailableKey (markKeyAsExhausted st k)
        · rw [if_pos hav] at h
          cases h
        · rw [if_neg hav] at h
          obtain ⟨evs₀, hr, hevs⟩ := ModelLoopResult.prepend_success_inv h
          subst hevs
          obtain ⟨ev, s, hlast, hout, ht, hst⟩ :=
            ih (mIdx + 1) (markKeyAsExhausted st k) (calls + 1) t evs₀ st2 c hr
          have hne : evs₀ ≠ [] := by
            intro hnil
            rw [hnil] at hlast
            cases hlast
          exact ⟨ev, s, by rw [getLast?_cons_of_ne_nil _ hne]; exact hlast,
            hout, ht, hst⟩
      | modelUnavailable =>
        simp only [tryModels, hgen, hcls] at h
        obtain ⟨evs₀, hr, hevs⟩ := ModelLoopResult.prepend_success_inv h
        subst hevs
        obtain ⟨ev, s, hlast, hout, ht, hst⟩ :=
          ih (mIdx + 1) st (calls + 1) t evs₀ st2 c hr
        have hne : evs₀ ≠ [] := by
          intro hnil
          rw [hnil] at hlast
          cases hlast
        exact ⟨ev, s, by rw [getLast?_cons_of_ne_nil _ hne]; exact hlast,
          hout, ht, hst⟩
      | invalidKey =>
        simp only [tryModels, hgen, hcls] at h
        cases h
      | other =>
        simp only [tryModels, hgen, hcls] at h
        cases h

/-- Inversion of a model loop ending in an immediate throw: the last event
carries the thrown message, is classified unreproducible ("other"), and the
loop's final state is its (unchanged) state. -/
theorem tryModels_thrown (gen : Provider) (a k : Nat) :
    ∀ (ms : List String) (mIdx : Nat) (st : GatewayState) (calls : Nat)
      (e : String) (evs : List CallEvent) (st2 : GatewayState) (c : Nat),
      tryModels gen a k mIdx st calls ms = .thrown e evs st2 c →
      ∃ ev, evs.getLast? = some ev ∧ ev.outcome = .error e ∧
        evClass ev = some .other ∧ st2 = ev.stAfter := by
  intro ms
  induction ms with
  | nil =>
    intro mIdx st calls e evs st2 c h
    simp only [tryModels] at h
    cases h
  | cons model rest ih =>
    intro mIdx st calls e evs st2 c h
    cases hgen : gen calls k model with
    | ok text =>
      simp only [tryModels, hgen] at h
      cases h
    | error msg =>
      cases hcls : classifyError msg with
      | quota =>
        simp only [tryModels, hgen, hcls] at h
        by_cases hav : hasAvailableKey (markKeyAsExhausted st k)
        · rw [if_pos hav] at h
          cases h
        · rw [if_neg hav] at h
          obtain ⟨evs₀, hr, hevs⟩ := ModelLoopResult.prepend_thrown_inv h
          subst hevs
          obtain ⟨ev, hlast, hout, hclass, hst⟩ :=
            ih (mIdx + 1) (markKeyAsExhausted st k) (calls + 1) e evs₀ st2 c hr
          have hne : evs₀ ≠ [] := by
            intro hnil
            rw [hnil] at hlast
            cases hlast
          exact ⟨ev, by rw [getLast?_cons_of_ne_nil _ hne]; exact hlast,
            hout, hclass, hst⟩
      | modelUnavailable =>
        simp only [tryModels, hgen, hcls] at h
        obtain ⟨evs₀, hr, hevs⟩ := ModelLoopResult.prepend_thrown_inv h
        subst hevs
        obtain ⟨ev, hlast, hout, hclass, hst⟩ :=
          ih (mIdx + 1) st (calls + 1) e evs₀ st2 c hr
        have hne : evs₀ ≠ [] := by
          intro hnil
          rw [hnil] at hlast
          cases hlast
        exact ⟨ev, by rw [getLast?_cons_of_ne_nil _ hne]; exact hlast,
          hout, hclass, hst⟩
      | invalidKey =>
        simp only [tryModels, hgen, hcls] at h
        cases h
      | other =>
        simp only [tryModels, hgen, hcls] at h
        injection h with h1 h2 h3 h4
        subst h1
        subst h2
        subst h3
        exact ⟨_, List.getLast?_singleton _, rfl, by simp [evClass, hcls], rfl⟩

/-- An unclassified error ends the model loop: such an event is the loop's
last event and the loop throws exactly its message. -/
theorem tryModels_other_is_last (gen : Provider) (a k : Nat) :
    ∀ (ms : List String) (mIdx : Nat) (st : GatewayState) (calls : Nat),
      ∀ ev ∈ (tryModels gen a k mIdx st calls ms).evs,
        evClass ev = some .other →
        (tryModels gen a k mIdx st calls ms).evs.getLast? = some ev ∧
        ∃ st2 c, tryModels gen a k mIdx st calls ms =
          .thrown (evErr ev) (tryModels gen a k mIdx st calls ms).evs st2 c := by
  intro ms
  induction ms with
  | nil =>
    intro mIdx st calls ev hev
    simp [tryModels, ModelLoopResult.evs] at hev
  | cons model rest ih =>
    intro mIdx st calls ev hev hother
    cases hgen : gen calls k model with
    | ok text =>
      simp only [tryModels, hgen, ModelLoopResult.evs] at hev
      rcases List.mem_cons.mp hev with h | h
      · subst h
        simp [evClass] at hother
      · simp at h
    | error msg =>
      cases hcls : classifyError msg with
      | quota =>
        simp only [tryModels, hgen, hcls] at hev ⊢
        by_cases hav : hasAvailableKey (markKeyAsExhausted st k)
        · rw [if_pos hav] at hev ⊢
          simp only [ModelLoopResult.evs] at hev
          rcases List.mem_cons.mp hev with h | h
          · subst h
            simp [evClass, hcls] at hother
          · simp at h
        · rw [if_neg hav] at hev ⊢
          rw [ModelLoopResult.prepend_evs] at hev
          rcases List.mem_cons.mp hev with h | h
          · subst h
            simp [evClass, hcls] at hother
          · obtain ⟨hlast, st2, c2, hthrown⟩ :=
              ih (mIdx + 1) (markKeyAsExhausted st k) (calls + 1) ev h hother
            have hne : (tryModels gen a k (mIdx + 1) (markKeyAsExhausted st k)
                (calls + 1) rest).evs ≠ [] := by
              intro hnil
              rw [hnil] at hlast
              cases hlast
            rw [hthrown]
            refine ⟨?_, st2, c2, ?_⟩
            · rw [ModelLoopResult.prepend_evs, hthrown] at *
              simp only [ModelLoopResult.evs]
              rw [hthrown] at hne
              simp only [ModelLoopResult.evs] at hne hlast
              rw [getLast?_cons_of_ne_nil _ hne]
              exact hlast
            · simp only [ModelLoopResult.prepend, ModelLoopResult.evs]
      | modelUnavailable =>
        simp only [tryModels, hgen, hcls] at hev ⊢
        rw [ModelLoopResult.prepend_evs] at hev
        rcases List.mem_cons.mp hev with h | h
        · subst h
          simp [evClass, hcls] at hother
        · obtain ⟨hlast, st2, c2, hthrown⟩ :=
            ih (mIdx + 1) st (calls + 1) ev h hother
          have hne : (tryModels gen a k (mIdx + 1) st (calls + 1) rest).evs ≠ [] := by
            intro hnil
            rw [hnil] at hlast
            cases hlast
          rw [hthrown]
          refine ⟨?_, st2, c2, ?_⟩
          · rw [ModelLoopResult.prepend_evs, hthrown] at *
            simp only [ModelLoopResult.evs]
            rw [hthrown] at hne
            simp only [ModelLoopResult.evs] at hne hlast
            rw [getLast?_cons_of_ne_nil _ hne]
            exact hlast
          · simp only [ModelLoopResult.prepend, ModelLoopResult.evs]
      | invalidKey =>
        simp only [tryModels, hgen, hcls, ModelLoopResult.evs] at hev
        rcases List.mem_cons.mp hev with h | h
        · subst h
          simp [evClass, hcls] at hother
        · simp at h
      | other =>
        simp only [tryModels, hgen, hcls, ModelLoopResult.evs] at hev ⊢
        rcases List.mem_cons.mp hev with h | h
        · subst h
          exact ⟨List.getLast?_singleton _, st, calls + 1, by
            simp only [tryModels, hgen, hcls, ModelLoopResult.evs, evErr]⟩
        · simp at h

/-- An element named by `getLast?` is a member. -/
theorem mem_of_getLast?_eq {α : Type _} {l : List α} {a : α}
    (h : l.getLast? = some a) : a ∈ l := by
  cases l with
  | nil => cases h
  | cons b l' =>
    rw [List.getLast?_eq_getLast_of_ne_nil (List.cons_ne_nil b l')] at h
    injection h with h
    exact h ▸ List.getLast_mem (List.cons_ne_nil b l')

/-- A nonempty list has a `getLast?`. -/
theorem getLast?_of_ne_nil {α : Type _} {l : List α} (h : l ≠ []) :
    ∃ a, l.getLast? = some a :=
  ⟨l.getLast h, List.getLast?_eq_getLast_of_ne_nil h⟩

/-- The model chain is the fixed five-element list. -/
theorem models_eq : models = "gemini-2.0-flash-001" ::
    ["gemini-2.5-flash", "gemini-2.0-flash-lite-001", "gemini-flash-latest",
      "gemini-2.5-pro"] := rfl

/-- The model loop over the full chain always issues a first request. -/
theorem tryModels_models_head (gen : Provider) (a k : Nat) (st : GatewayState)
    (calls : Nat) :
    ∃ ev evs', (tryModels gen a k 0 st calls models).evs = ev :: evs' ∧
      ev.attempt = a ∧ ev.keyIndex = k ∧ ev.modelIdx = 0 ∧ ev.stBefore = st :=
  tryModels_head gen a k "gemini-2.0-flash-001"
    ["gemini-2.5-flash", "gemini-2.0-flash-lite-001", "gemini-flash-latest",
      "gemini-2.5-pro"] 0 st calls

/-- A run with an empty trace made no attempt, so its final state is its
input state. -/
theorem runAttempts_trace_nil (gen : Provider) :
    ∀ (a rem : Nat) (st : GatewayState) (calls : Nat) (lastErr : Option String),
      (runAttempts gen a rem st calls lastErr).trace = [] →
      (runAttempts gen a rem st calls lastErr).finalState = st := by
  intro a rem st calls lastErr h
  cases rem with
  | zero => rfl
  | succ rem' =>
    exfalso
    obtain ⟨ev, evs', heq, -, -, -, -⟩ := tryModels_models_head gen a
      (getNextAvailableKeyIndex st)
      { st with currentKeyIndex := getNextAvailableKeyIndex st } calls
    simp only [runAttempts] at h
    cases htm : tryModels gen a (getNextAvailableKeyIndex st) 0
        { st with currentKeyIndex := getNextAvailableKeyIndex st } calls models with
    | success t evs st2 c =>
      rw [htm] at h heq
      simp only [ModelLoopResult.evs] at heq
      subst heq
      simp at h
    | thrown e evs st2 c =>
      rw [htm] at h heq
      simp only [ModelLoopResult.evs] at heq
      subst heq
      simp at h
    | continueOuter le evs st2 c =>
      rw [htm] at h heq
      simp only [ModelLoopResult.evs] at heq
      subst heq
      simp at h

/-- The first event of a run belongs to the starting attempt: chain position
zero, on the key the rotation scan picks from the input state, with the
cursor moved onto that key. -/
theorem runAttempts_head (gen : Provider) (a rem : Nat) (st : GatewayState)
    (calls : Nat) (lastErr : Option String) (ev : CallEvent)
    (h : (runAttempts gen a rem st calls lastErr).trace.head? = some ev) :
    ev.attempt = a ∧ ev.modelIdx = 0 ∧
    ev.keyIndex = getNextAvailableKeyIndex st ∧
    ev.stBefore = { st with currentKeyIndex := getNextAvailableKeyIndex st } := by
  cases rem with
  | zero => cases h
  | succ rem' =>
    obtain ⟨ev₀, evs', heq, ha, hk, hm, hsb⟩ := tryModels_models_head gen a
      (getNextAvailableKeyIndex st)
      { st with currentKeyIndex := getNextAvailableKeyIndex st } calls
    simp only [runAttempts] at h
    cases htm : tryModels gen a (getNextAvailableKeyIndex st) 0
        { st with currentKeyIndex := getNextAvailableKeyIndex st } calls models with
    | success t evs st2 c =>
      rw [htm] at h heq
      simp only [ModelLoopResult.evs] at heq
      subst heq
      simp only [List.head?_cons, Option.some_inj] at h
      subst h
      exact ⟨ha, hm, hk, hsb⟩
    | thrown e evs st2 c =>
      rw [htm] at h heq
      simp only [ModelLoopResult.evs] at heq
      subst heq
      simp only [List.head?_cons, Option.some_inj] at h
      subst h
      exact ⟨ha, hm, hk, hsb⟩
    | continueOuter le evs st2 c =>
      rw [htm] at h heq
      simp only [ModelLoopResult.evs] at heq
      subst heq
      rw [List.head?_append_of_ne_nil _ (List.cons_ne_nil ev₀ evs')] at h
      simp only [List.head?_cons, Option.some_inj] at h
      subst h
      exact ⟨ha, hm, hk, hsb⟩

/-- The final state of a run is the after-state of its last event. -/
theorem runAttempts_last_state (gen : Provider) :
    ∀ (a rem : Nat) (st : GatewayState) (calls : Nat) (lastErr : Option String)
      (ev : CallEvent),
      (runAttempts gen a rem st calls lastErr).trace.getLast? = some ev →
      (runAttempts gen a rem st calls lastErr).finalState = ev.stAfter := by
  intro a rem
  induction rem generalizing a with
  | zero => intro st calls lastErr ev h; cases h
  | succ rem' ih =>
    intro st calls lastErr ev h
    simp only [runAttempts] at h ⊢
    cases htm : tryModels gen a (getNextAvailableKeyIndex st) 0
        { st with currentKeyIndex := getNextAvailableKeyIndex st } calls models with
    | success t evs st2 c =>
      rw [htm] at h
      obtain ⟨ev', s, hlast, -, -, hst⟩ := tryModels_success gen a
        (getNextAvailableKeyIndex st) models 0
        { st with currentKeyIndex := getNextAvailableKeyIndex st } calls
        t evs st2 c htm
      simp only at h
      rw [hlast] at h
      injection h with h
      subst h
      exact hst
    | thrown e evs st2 c =>
      rw [htm] at h
      obtain ⟨ev', hlast, -, -, hst⟩ := tryModels_thrown gen a
        (getNextAvailableKeyIndex st) models 0
        { st with currentKeyIndex := getNextAvailableKeyIndex st } calls
        e evs st2 c htm
      simp only at h
      rw [hlast] at h
      injection h with h
      subst h
      exact hst
    | continueOuter le evs st2 c =>
      rw [htm] at h
      simp only at h ⊢
      by_cases hrec : (runAttempts gen (a + 1) rem' st2 c
          (le <|> lastErr)).trace = []
      · rw [hrec, List.append_nil] at h
        rw [runAttempts_trace_nil gen (a + 1) rem' st2 c (le <|> lastErr) hrec]
        exact ((tryModels_continueOuter gen a (getNextAvailableKeyIndex st)
          models 0 { st with currentKeyIndex := getNextAvailableKeyIndex st }
          calls le evs st2 c rfl htm).2 ev h).1
      · rw [List.getLast?_append_of_ne_nil _ hrec] at h
        exact ih (a + 1) st2 c (le <|> lastErr) ev h

/-- The model-loop events satisfy the per-event trace invariant. -/
theorem EvTraceInv_of_tryModels (gen : Provider) (n a k : Nat) (hk : k < n)
    (ms : List String) (mIdx : Nat) (st : GatewayState) (calls : Nat)
    (h1 : st.numKeys = n) (h2 : st.currentKeyIndex = k) :
    ∀ ev ∈ (tryModels gen a k mIdx st calls ms).evs, EvTraceInv n ev := by
  intro ev hev
  obtain ⟨ha, hkey, hbn, han, hbc, hac, -, -, hq, hnq⟩ :=
    tryModels_events gen a k n ms mIdx st calls h1 h2 ev hev
  refine ⟨?_, hbn, han, ?_, ?_, hq, hnq⟩
  · rw [hkey]; exact hk
  · rw [hbc, hkey]
  · rw [hac, hkey]

/-- The attempt number of a model-loop event. -/
theorem tryModels_attempt_of_mem (gen : Provider) (a k : Nat) (ms : List String)
    (mIdx : Nat) (st : GatewayState) (calls : Nat) (h2 : st.currentKeyIndex = k)
    (ev : CallEvent)
    (hev : ev ∈ (tryModels gen a k mIdx st calls ms).evs) : ev.attempt = a :=
  (tryModels_events gen a k st.numKeys ms mIdx st calls rfl h2 ev hev).1

/-- Every event of a run on a well-formed gateway state (`n` keys, cursor in
range) satisfies the per-event trace invariant. -/
theorem runAttempts_events (gen : Provider) (n : Nat) (hn : 0 < n) :
    ∀ (a rem : Nat) (st : GatewayState) (calls : Nat) (lastErr : Option String),
      st.numKeys = n → st.currentKeyIndex < n →
      ∀ ev ∈ (runAttempts gen a rem st calls lastErr).trace, EvTraceInv n ev := by
  intro a rem
  induction rem generalizing a with
  | zero =>
    intro st calls lastErr _ _ ev hev
    simp [runAttempts] at hev
  | succ rem' ih =>
    intro st calls lastErr h1 h2 ev hev
    have hk : getNextAvailableKeyIndex st < n := by
      rw [← h1]
      exact getNextAvailableKeyIndex_lt st (by omega) (by omega)
    simp only [runAttempts] at hev
    cases htm : tryModels gen a (getNextAvailableKeyIndex st) 0
        { st with currentKeyIndex := getNextAvailableKeyIndex st } calls models with
    | success t evs st2 c =>
      rw [htm] at hev
      simp only at hev
      exact EvTraceInv_of_tryModels gen n a (getNextAvailableKeyIndex st) hk
        models 0 { st with currentKeyIndex := getNextAvailableKeyIndex st }
        calls h1 rfl ev (htm ▸ hev)
    | thrown e evs st2 c =>
      rw [htm] at hev
      simp only at hev
      exact EvTraceInv_of_tryModels gen n a (getNextAvailableKeyIndex st) hk
        models 0 { st with currentKeyIndex := getNextAvailableKeyIndex st }
        calls h1 rfl ev (htm ▸ hev)
    | continueOuter le evs st2 c =>
      rw [htm] at hev
      simp only at hev
      rcases List.mem_append.mp hev with hmem | hmem
      · exact EvTraceInv_of_tryModels gen n a (getNextAvailableKeyIndex st) hk
          models 0 { st with currentKeyIndex := getNextAvailableKeyIndex st }
          calls h1 rfl ev (htm ▸ hmem)
      · obtain ⟨ev₀, evs', heq, -, -, -, -⟩ := tryModels_models_head gen a
          (getNextAvailableKeyIndex st)
          { st with currentKeyIndex := getNextAvailableKeyIndex st } calls
        rw [htm] at heq
        simp only [ModelLoopResult.evs] at heq
        have hne : evs ≠ [] := by
          rw [heq]
          exact List.cons_ne_nil _ _
        obtain ⟨evL, hlast⟩ := getLast?_of_ne_nil hne
        have hstL := ((tryModels_continueOuter gen a (getNextAvailableKeyIndex st)
          models 0 { st with currentKeyIndex := getNextAvailableKeyIndex st }
          calls le evs st2 c rfl htm).2 evL hlast).1
        have hinvL := EvTraceInv_of_tryModels gen n a (getNextAvailableKeyIndex st)
          hk models 0
          { st with currentKeyIndex := getNextAvailableKeyIndex st } calls h1 rfl evL (htm ▸ mem_of_getLast?_eq hlast)
        have hst2n : st2.numKeys = n := by rw [hstL]; exact hinvL.2.2.1
        have hst2c : st2.currentKeyIndex < n := by
          rw [hstL, hinvL.2.2.2.2.1]
          exact hinvL.1
        exact ih (a + 1) st2 c (le <|> lastErr) hst2n hst2c ev hmem

/-- Consecutive events of a run are related by `TraceStep`: within one
attempt they walk the model chain; across attempts the second event opens
the next attempt on the freshly scanned key. -/
theorem runAttempts_chain (gen : Provider) (n : Nat) (hn : 0 < n) :
    ∀ (a rem : Nat) (st : GatewayState) (calls : Nat) (lastErr : Option String),
      st.numKeys = n → st.currentKeyIndex < n →
      (runAttempts gen a rem st calls lastErr).trace.Chain' TraceStep := by
  intro a rem
  induction rem generalizing a with
  | zero =>
    intro st calls lastErr _ _
    exact List.chain'_nil
  | succ rem' ih =>
    intro st calls lastErr h1 h2
    have hk : getNextAvailableKeyIndex st < n := by
      rw [← h1]
      exact getNextAvailableKeyIndex_lt st (by omega) (by omega)
    simp only [runAttempts]
    cases htm : tryModels gen a (getNextAvailableKeyIndex st) 0
        { st with currentKeyIndex := getNextAvailableKeyIndex st } calls models with
    | success t evs st2 c =>
      simp only
      have := tryModels_chain gen a (getNextAvailableKeyIndex st) models 0
        { st with currentKeyIndex := getNextAvailableKeyIndex st } calls
      rw [htm] at this
      simp only [ModelLoopResult.evs] at this
      exact this.imp fun x y h => Or.inl h
    | thrown e evs st2 c =>
      simp only
      have := tryModels_chain gen a (getNextAvailableKeyIndex st) models 0
        { st with currentKeyIndex := getNextAvailableKeyIndex st } calls
      rw [htm] at this
      simp only [ModelLoopResult.evs] at this
      exact this.imp fun x y h => Or.inl h
    | continueOuter le evs st2 c =>
      simp only
      obtain ⟨ev₀, evs', heq, -, -, -, -⟩ := tryModels_models_head gen a
        (getNextAvailableKeyIndex st)
        { st with currentKeyIndex := getNextAvailableKeyIndex st } calls
      rw [htm] at heq
      simp only [ModelLoopResult.evs] at heq
      have hne : evs ≠ [] := by
        rw [heq]
        exact List.cons_ne_nil _ _
      obtain ⟨evL, hlast⟩ := getLast?_of_ne_nil hne
      have hctd := (tryModels_continueOuter gen a (getNextAvailableKeyIndex st)
        models 0 { st with currentKeyIndex := getNextAvailableKeyIndex st }
        calls le evs st2 c rfl htm).2 evL hlast
      have hinvL := EvTraceInv_of_tryModels gen n a (getNextAvailableKeyIndex st)
        hk models 0
          { st with currentKeyIndex := getNextAvailableKeyIndex st } calls h1 rfl evL (htm ▸ mem_of_getLast?_eq hlast)
      have hst2n : st2.numKeys = n := by rw [hctd.1]; exact hinvL.2.2.1
      have hst2c : st2.currentKeyIndex < n := by
        rw [hctd.1, hinvL.2.2.2.2.1]
        exact hinvL.1
      refine List.Chain'.append ?_ (ih (a + 1) st2 c (le <|> lastErr) hst2n hst2c) ?_
      · have := tryModels_chain gen a (getNextAvailableKeyIndex st) models 0
          { st with currentKeyIndex := getNextAvailableKeyIndex st } calls
        rw [htm] at this
        simp only [ModelLoopResult.evs] at this
        exact this.imp fun x y h => Or.inl h
      · intro x hx y hy
        have hx' : evs.getLast? = some x := hx
        have hxL : x = evL := by
          rw [hx'] at hlast
          injection hlast
        subst hxL
        have hy' : (runAttempts gen (a + 1) rem' st2 c
            (le <|> lastErr)).trace.head? = some y := hy
        obtain ⟨hya, hym, hyk, hysb⟩ := runAttempts_head gen (a + 1) rem' st2 c
          (le <|> lastErr) y hy'
        have hxa : x.attempt = a := tryModels_attempt_of_mem gen a
          (getNextAvailableKeyIndex st) models 0
          { st with currentKeyIndex := getNextAvailableKeyIndex st } calls rfl x
          (htm ▸ mem_of_getLast?_eq hx')
        refine Or.inr ⟨by rw [hya, hxa], hym, by rw [hyk, hctd.1], ?_, ?_⟩
        · rw [hysb, hctd.1]
        · rcases hctd.2.2.2 with hcase | hcase | hcase
          · exact Or.inl hcase
          · exact Or.inr (Or.inl hcase)
          · exact Or.inr (Or.inr hcase)

/-- A successful run ends on a successful request: the last event of the
trace carries the response text, which is returned with the empty string
normalized to the placeholder. -/
theorem runAttempts_ok (gen : Provider) :
    ∀ (a rem : Nat) (st : GatewayState) (calls : Nat) (lastErr : Option String)
      (t : String),
      (runAttempts gen a rem st calls lastErr).result = .ok t →
      ∃ ev s, (runAttempts gen a rem st calls lastErr).trace.getLast? = some ev ∧
        ev.outcome = .ok s ∧
        t = (if s = "" then "Generated summary (no text returned)" else s) := by
  intro a rem
  induction rem generalizing a with
  | zero =>
    intro st calls lastErr t h
    simp [runAttempts] at h
  | succ rem' ih =>
    intro st calls lastErr t h
    simp only [runAttempts] at h ⊢
    cases htm : tryModels gen a (getNextAvailableKeyIndex st) 0
        { st with currentKeyIndex := getNextAvailableKeyIndex st } calls models with
    | success t' evs st2 c =>
      rw [htm] at h
      have h' : Except.ok (ε := String) t' = Except.ok t := h
      injection h' with h'
      subst h'
      obtain ⟨ev, s, hlast, hout, ht, -⟩ := tryModels_success gen a
        (getNextAvailableKeyIndex st) models 0
        { st with currentKeyIndex := getNextAvailableKeyIndex st } calls
        t' evs st2 c htm
      exact ⟨ev, s, hlast, hout, ht⟩
    | thrown e evs st2 c =>
      rw [htm] at h
      exact Except.noConfusion h
    | continueOuter le evs st2 c =>
      rw [htm] at h
      have h' : (runAttempts gen (a + 1) rem' st2 c (le <|> lastErr)).result =
          .ok t := h
      obtain ⟨ev, s, hlast, hout, ht⟩ := ih (a + 1) st2 c (le <|> lastErr) t h'
      have hrecne : (runAttempts gen (a + 1) rem' st2 c
          (le <|> lastErr)).trace ≠ [] := by
        intro hnil
        rw [hnil] at hlast
        cases hlast
      refine ⟨ev, s, ?_, hout, ht⟩
      show (evs ++ (runAttempts gen (a + 1) rem' st2 c
        (le <|> lastErr)).trace).getLast? = some ev
      rw [List.getLast?_append_of_ne_nil _ hrecne]
      exact hlast

/-- An unclassified provider error ends the whole call: its event is the
last of the trace, the call's result is exactly that error, and the final
state is the state that event left behind. -/
theorem runAttempts_other (gen : Provider) :
    ∀ (a rem : Nat) (st : GatewayState) (calls : Nat) (lastErr : Option String)
      (ev : CallEvent),
      ev ∈ (runAttempts gen a rem st calls lastErr).trace →
      evClass ev = some .other →
      (runAttempts gen a rem st calls lastErr).trace.getLast? = some ev ∧
      (runAttempts gen a rem st calls lastErr).result = .error (evErr ev) ∧
      (runAttempts gen a rem st calls lastErr).finalState = ev.stAfter := by
  intro a rem
  induction rem generalizing a with
  | zero =>
    intro st calls lastErr ev hev _
    simp [runAttempts] at hev
  | succ rem' ih =>
    intro st calls lastErr ev hev hother
    simp only [runAttempts] at hev ⊢
    cases htm : tryModels gen a (getNextAvailableKeyIndex st) 0
        { st with currentKeyIndex := getNextAvailableKeyIndex st } calls models with
    | success t evs st2 c =>
      rw [htm] at hev
      have hev' : ev ∈ evs := hev
      obtain ⟨-, st2', c', hthrown⟩ := tryModels_other_is_last gen a
        (getNextAvailableKeyIndex st) models 0
        { st with currentKeyIndex := getNextAvailableKeyIndex st } calls
        ev (htm ▸ hev') hother
      rw [htm] at hthrown
      cases hthrown
    | thrown e evs st2 c =>
      rw [htm] at hev
      have hev' : ev ∈ evs := hev
      obtain ⟨hlast, st2', c', hthrown⟩ := tryModels_other_is_last gen a
        (getNextAvailableKeyIndex st) models 0
        { st with currentKeyIndex := getNextAvailableKeyIndex st } calls
        ev (htm ▸ hev') hother
      rw [htm] at hlast hthrown
      simp only [ModelLoopResult.evs] at hlast hthrown
      injection hthrown with he hevs hst hc
      refine ⟨?_, ?_, ?_⟩
      · show evs.getLast? = some ev
        exact hlast
      · show Except.error (α := String) e = Except.error (evErr ev)
        rw [he]
      · show st2 = ev.stAfter
        obtain ⟨ev₂, hlast₂, -, -, hst₂⟩ := tryModels_thrown gen a
          (getNextAvailableKeyIndex st) models 0
          { st with currentKeyIndex := getNextAvailableKeyIndex st } calls
          e evs st2 c htm
        have hev₂ : ev₂ = ev := by
          rw [hlast₂] at hlast
          injection hlast
        rw [hst₂, hev₂]
    | continueOuter le evs st2 c =>
      rw [htm] at hev
      have hev' : ev ∈ evs ++ (runAttempts gen (a + 1) rem' st2 c
          (le <|> lastErr)).trace := hev
      rcases List.mem_append.mp hev' with hmem | hmem
      · obtain ⟨-, st2', c', hthrown⟩ := tryModels_other_is_last gen a
          (getNextAvailableKeyIndex st) models 0
          { st with currentKeyIndex := getNextAvailableKeyIndex st } calls
          ev (htm ▸ hmem) hother
        rw [htm] at hthrown
        cases hthrown
      · obtain ⟨hl, hr, hf⟩ := ih (a + 1) st2 c (le <|> lastErr) ev hmem hother
        have hrecne : (runAttempts gen (a + 1) rem' st2 c
            (le <|> lastErr)).trace ≠ [] := by
          intro hnil
          rw [hnil] at hl
          cases hl
        refine ⟨?_, ?_, ?_⟩
        · show (evs ++ (runAttempts gen (a + 1) rem' st2 c
            (le <|> lastErr)).trace).getLast? = some ev
          rw [List.getLast?_append_of_ne_nil _ hrecne]
          exact hl
        · show (runAttempts gen (a + 1) rem' st2 c (le <|> lastErr)).result =
            Except.error (evErr ev)
          exact hr
        · show (runAttempts gen (a + 1) rem' st2 c (le <|> lastErr)).finalState =
            ev.stAfter
          exact hf

/-- Access a `Chain'` fact at adjacent positions. -/
theorem chain'_get? {α : Type _} {R : α → α → Prop} {l : List α}
    (h : l.Chain' R) {i : Nat} {a b : α}
    (ha : l.get? i = some a) (hb : l.get? (i + 1) = some b) : R a b := by
  rw [List.chain'_iff_get] at h
  obtain ⟨hia, hga⟩ := List.get?_eq_some.mp ha
  obtain ⟨hib, hgb⟩ := List.get?_eq_some.mp hb
  have hR := h i (by omega)
  rw [show l.get ⟨i, by omega⟩ = a from hga,
    show l.get ⟨i + 1, by omega⟩ = b from hgb] at hR
  exact hR

/-- C5: when a request of a `complete` call fails with a quota-class error,
the current credential is marked exhausted with a sixty-second recovery
timer (none is armed if it was already exhausted); then, if at least one
credential is still available, the model chain for this credential is
abandoned and the next request (if any) opens the next outer attempt on a
different, non-exhausted credential; if no credential is available and the
chain has a next model, the next request tries that next model on the same
credential within the same attempt. -/
theorem quota_failure_policy (gen : Provider) (st : GatewayState)
    (hn : 0 < st.numKeys) (hcur : st.currentKeyIndex < st.numKeys)
    (i : Nat) (ev : CallEvent)
    (hev : (generateContentWithFallback gen st).trace.get? i = some ev)
    (hq : evClass ev = some .quota) :
    (ev.stAfter = markKeyAsExhausted ev.stBefore ev.keyIndex ∧
      ev.keyIndex ∈ ev.stAfter.exhaustedKeys ∧
      (ev.keyIndex ∉ ev.stBefore.exhaustedKeys →
        (ev.keyIndex, ev.stBefore.now + 60) ∈ ev.stAfter.exhaustionTimers)) ∧
    (hasAvailableKey ev.stAfter = true →
      ∀ ev', (generateContentWithFallback gen st).trace.get? (i + 1) = some ev' →
        ev'.attempt = ev.attempt + 1 ∧ ev'.modelIdx = 0 ∧
        ev'.keyIndex ∉ ev.stAfter.exhaustedKeys ∧ ev'.keyIndex ≠ ev.keyIndex) ∧
    (hasAvailableKey ev.stAfter = false → ev.modelIdx + 1 < models.length →
      ∀ ev', (generateContentWithFallback gen st).trace.get? (i + 1) = some ev' →
        ev'.attempt = ev.attempt ∧ ev'.keyIndex = ev.keyIndex ∧
        ev'.modelIdx = ev.modelIdx + 1) := by
  have hinv := runAttempts_events gen st.numKeys hn 0 maxGlobalRetries st 0 none
    rfl hcur ev (List.get?_mem hev)
  have hmark : ev.stAfter = markKeyAsExhausted ev.stBefore ev.keyIndex :=
    hinv.2.2.2.2.2.1 hq
  refine ⟨⟨hmark, ?_, ?_⟩, ?_, ?_⟩
  · rw [hmark]
    exact markKeyAsExhausted_mem _ _
  · intro hnot
    rw [hmark]
    unfold markKeyAsExhausted
    rw [if_neg hnot]
    exact List.mem_cons_self _ _
  · intro hav ev' hev'
    have hstep := chain'_get? (runAttempts_chain gen st.numKeys hn 0
      maxGlobalRetries st 0 none rfl hcur) hev hev'
    rcases hstep with hin | hnew
    · exfalso
      rcases hin.2.2.2.2 with ⟨-, hfalse⟩ | hmu
      · rw [hav] at hfalse
        cases hfalse
      · rw [hq] at hmu
        cases hmu
    · obtain ⟨ha', hm', hk', -, -⟩ := hnew
      have hgood : getNextAvailableKeyIndex ev.stAfter ∉ ev.stAfter.exhaustedKeys := by
        apply getNextAvailableKeyIndex_available
        · rw [hinv.2.2.1]
          exact hn
        · rw [hinv.2.2.2.2.1, hinv.2.2.1]
          exact hinv.1
        · exact hav
      refine ⟨ha', hm', by rw [hk']; exact hgood, ?_⟩
      rw [hk']
      intro heq
      apply hgood
      rw [heq, hmark]
      exact markKeyAsExhausted_mem _ _
  · intro hnav hlt ev' hev'
    have hstep := chain'_get? (runAttempts_chain gen st.numKeys hn 0
      maxGlobalRetries st 0 none rfl hcur) hev hev'
    rcases hstep with hin | hnew
    · exact ⟨hin.1, hin.2.1, hin.2.2.1⟩
    · exfalso
      rcases hnew.2.2.2.2 with hik | ⟨-, htrue⟩ | hend
      · rw [hq] at hik
        cases hik
      · rw [hnav] at htrue
        cases htrue
      · omega

/-- C5 witness: a quota failure on key 0 of a fresh two-key gateway marks it
exhausted with a timer for sixty seconds later, and the next request opens
attempt 1 on key 1. -/
theorem quota_failure_policy_witness :
    evClass evQuota0 = some .quota ∧
    hasAvailableKey evQuota0.stAfter = true ∧
    evQuota0.stAfter = markKeyAsExhausted evQuota0.stBefore evQuota0.keyIndex ∧
    evQuota0.keyIndex ∈ evQuota0.stAfter.exhaustedKeys ∧
    (evQuota0.keyIndex, evQuota0.stBefore.now + 60) ∈
      evQuota0.stAfter.exhaustionTimers ∧
    evQuota1.attempt = evQuota0.attempt + 1 ∧ evQuota1.modelIdx = 0 ∧
    evQuota1.keyIndex ∉ evQuota0.stAfter.exhaustedKeys ∧
    evQuota1.keyIndex ≠ evQuota0.keyIndex := by
  have h := quota_failure_policy genQuota stTwoKeys (by decide) (by decide)
    0 evQuota0 rfl rfl
  have h2 := h.2.1 rfl evQuota1 rfl
  exact ⟨rfl, rfl, h.1.1, h.1.2.1, h.1.2.2 (by decide), h2.1, h2.2.1,
    h2.2.2.1, h2.2.2.2⟩

/-- C3 (amended): an invalid-key failure ends the model chain for the
current outer attempt, but the credential is not remembered as bad: the
failure leaves the state unchanged, and since the rotation scan of the next
outer attempt starts at the same (non-exhausted) credential, the very next
request retries the same credential. -/
theorem auth_failure_policy (gen : Provider) (st : GatewayState)
    (hn : 0 < st.numKeys) (hcur : st.currentKeyIndex < st.numKeys)
    (i : Nat) (ev ev' : CallEvent)
    (hev : (generateContentWithFallback gen st).trace.get? i = some ev)
    (hauth : evClass ev = some .invalidKey)
    (hev' : (generateContentWithFallback gen st).trace.get? (i + 1) = some ev') :
    ev'.attempt = ev.attempt + 1 ∧ ev'.modelIdx = 0 ∧
    ev.stAfter = ev.stBefore ∧
    (ev.keyIndex ∉ ev.stAfter.exhaustedKeys → ev'.keyIndex = ev.keyIndex) := by
  have hinv := runAttempts_events gen st.numKeys hn 0 maxGlobalRetries st 0 none
    rfl hcur ev (List.get?_mem hev)
  have hsame : ev.stAfter = ev.stBefore := by
    apply hinv.2.2.2.2.2.2
    rw [hauth]
    simp
  have hstep := chain'_get? (runAttempts_chain gen st.numKeys hn 0
    maxGlobalRetries st 0 none rfl hcur) hev hev'
  rcases hstep with hin | hnew
  · exfalso
    rcases hin.2.2.2.2 with ⟨hqq, -⟩ | hmu
    · rw [hauth] at hqq
      cases hqq
    · rw [hauth] at hmu
      cases hmu
  · obtain ⟨ha', hm', hk', -, -⟩ := hnew
    refine ⟨ha', hm', hsame, ?_⟩
    intro hnot
    rw [hk', getNextAvailableKeyIndex_self _ (by rw [hinv.2.2.2.2.1]; exact hnot),
      hinv.2.2.2.2.1]

/-- C3 counterexample: with two fresh credentials and a provider that always
reports `API_KEY_INVALID`, all three outer attempts of one call try models
against credential 0 — the later attempts reuse the very credential that
failed with an invalid-key error even though credential 1 remains available
(never exhausted) throughout. -/
theorem auth_failure_counterexample :
    ((generateContentWithFallback genAuth stTwoKeys).trace.map
      fun e => (e.attempt, e.keyIndex)) = [(0, 0), (1, 0), (2, 0)] ∧
    (generateContentWithFallback genAuth stTwoKeys).finalState.exhaustedKeys = [] ∧
    evClass evAuth0 = some .invalidKey ∧
    (generateContentWithFallback genAuth stTwoKeys).result =
      .error "API_KEY_INVALID" :=
  ⟨rfl, rfl, rfl, rfl⟩

/-- C3 witness (for the amended claim): in the concrete invalid-key run the
second request opens attempt 1 with the same credential 0. -/
theorem auth_failure_policy_witness :
    evClass evAuth0 = some .invalidKey ∧
    evAuth1.attempt = evAuth0.attempt + 1 ∧ evAuth1.modelIdx = 0 ∧
    evAuth0.stAfter = evAuth0.stBefore ∧
    evAuth1.keyIndex = evAuth0.keyIndex := by
  have h := auth_failure_policy genAuth stTwoKeys (by decide) (by decide)
    0 evAuth0 evAuth1 rfl rfl rfl
  exact ⟨rfl, h.1, h.2.1, h.2.2.1, h.2.2.2 (by decide)⟩

/-- C8: a provider failure matching none of the quota, model-unavailable or
invalid-key classes ends the whole `complete` call at once: its event is the
last provider request of the call, the call's result is exactly that error
message, and the failure changes no credential state (no marking, no
rotation) — the final state is the state the failing request saw. -/
theorem unclassified_failure_propagates (gen : Provider) (st : GatewayState)
    (hn : 0 < st.numKeys) (hcur : st.currentKeyIndex < st.numKeys)
    (ev : CallEvent)
    (hev : ev ∈ (generateContentWithFallback gen st).trace)
    (hother : evClass ev = some .other) :
    (generateContentWithFallback gen st).trace.getLast? = some ev ∧
    (generateContentWithFallback gen st).result = .error (evErr ev) ∧
    ev.stAfter = ev.stBefore ∧
    (generateContentWithFallback gen st).finalState = ev.stAfter := by
  obtain ⟨hl, hr, hf⟩ := runAttempts_other gen 0 maxGlobalRetries st 0 none
    ev hev hother
  have hinv := runAttempts_events gen st.numKeys hn 0 maxGlobalRetries st 0 none
    rfl hcur ev hev
  refine ⟨hl, hr, ?_, hf⟩
  apply hinv.2.2.2.2.2.2
  rw [hother]
  simp

/-- C8 witness: a `PERMISSION_DENIED` failure (no recognized class) on a
fresh two-key gateway is the only request of the call, the call propagates
the message verbatim and the state is untouched. -/
theorem unclassified_failure_propagates_witness :
    evOther ∈ (generateContentWithFallback genOther stTwoKeys).trace ∧
    evClass evOther = some .other ∧
    (generateContentWithFallback genOther stTwoKeys).trace.getLast? =
      some evOther ∧
    (generateContentWithFallback genOther stTwoKeys).result =
      .error "PERMISSION_DENIED" ∧
    evOther.stAfter = evOther.stBefore := by
  have hmem : evOther ∈ (generateContentWithFallback genOther stTwoKeys).trace := by
    rw [show (generateContentWithFallback genOther stTwoKeys).trace = [evOther]
      from rfl]
    exact List.mem_singleton.mpr rfl
  have h := unclassified_failure_propagates genOther stTwoKeys (by decide)
    (by decide) evOther hmem rfl
  exact ⟨hmem, rfl, h.1, h.2.1, h.2.2.1⟩

/-- C4 (amended): after a successful `complete` call the Rotation Cursor is
left pointing at the credential that served the success — it does not
advance — so the next call's scan starts at that same credential (and picks
it again whenever it is not exhausted); timer-based recovery of an
exhausted credential never moves the cursor. -/
theorem cursor_after_success (gen : Provider) (st : GatewayState)
    (hn : 0 < st.numKeys) (hcur : st.currentKeyIndex < st.numKeys)
    (t : String) (ev : CallEvent)
    (hok : (generateContentWithFallback gen st).result = .ok t)
    (hlast : (generateContentWithFallback gen st).trace.getLast? = some ev) :
    ev.outcome.isOk = true ∧
    (generateContentWithFallback gen st).finalState = ev.stAfter ∧
    (generateContentWithFallback gen st).finalState.currentKeyIndex =
      ev.keyIndex ∧
    (∀ t', (fireTimers (generateContentWithFallback gen st).finalState
        t').currentKeyIndex =
      (generateContentWithFallback gen st).finalState.currentKeyIndex) ∧
    (ev.keyIndex ∉ (generateContentWithFallback gen st).finalState.exhaustedKeys →
      getNextAvailableKeyIndex (generateContentWithFallback gen st).finalState =
        ev.keyIndex) := by
  simp only [generateContentWithFallback] at hok hlast ⊢
  obtain ⟨ev₂, s, hl₂, hout, -⟩ := runAttempts_ok gen 0 maxGlobalRetries st 0
    none t hok
  have hev₂ : ev₂ = ev := by
    rw [hl₂] at hlast
    injection hlast
  subst hev₂
  have hfs := runAttempts_last_state gen 0 maxGlobalRetries st 0 none ev₂ hl₂
  have hinv := runAttempts_events gen st.numKeys hn 0 maxGlobalRetries st 0 none
    rfl hcur ev₂ (mem_of_getLast?_eq hl₂)
  have hfcur : (runAttempts gen 0 maxGlobalRetries st 0
      none).finalState.currentKeyIndex = ev₂.keyIndex := by
    rw [hfs]
    exact hinv.2.2.2.2.1
  refine ⟨by rw [hout]; rfl, hfs, hfcur, fun t' => rfl, ?_⟩
  intro hnot
  rw [getNextAvailableKeyIndex_self _ (by rw [hfcur]; exact hnot)]
  exact hfcur

/-- C4 counterexample: a successful call served by credential 0 of a fresh
two-key gateway leaves the cursor on 0 (its starting position), and the next
call's credential search again starts at — and picks — credential 0, the
very credential that just served. -/
theorem cursor_after_success_counterexample :
    (generateContentWithFallback genOk stTwoKeys).result = .ok "hi" ∧
    (generateContentWithFallback genOk stTwoKeys).trace.getLast? =
      some evOkFirst ∧
    evOkFirst.keyIndex = 0 ∧
    stTwoKeys.currentKeyIndex = 0 ∧
    (generateContentWithFallback genOk stTwoKeys).finalState.currentKeyIndex = 0 ∧
    getNextAvailableKeyIndex
      (generateContentWithFallback genOk stTwoKeys).finalState = 0 :=
  ⟨rfl, rfl, rfl, rfl, rfl, rfl⟩

/-- C4 witness (for the amended claim): in the concrete successful run the
final cursor sits on the serving credential and the next scan picks it. -/
theorem cursor_after_success_witness :
    evOkFirst.outcome.isOk = true ∧
    (generateContentWithFallback genOk stTwoKeys).finalState =
      evOkFirst.stAfter ∧
    (generateContentWithFallback genOk stTwoKeys).finalState.currentKeyIndex =
      evOkFirst.keyIndex ∧
    (fireTimers (generateContentWithFallback genOk stTwoKeys).finalState
        99).currentKeyIndex =
      (generateContentWithFallback genOk stTwoKeys).finalState.currentKeyIndex ∧
    getNextAvailableKeyIndex
        (generateContentWithFallback genOk stTwoKeys).finalState =
      evOkFirst.keyIndex := by
  have h := cursor_after_success genOk stTwoKeys (by decide) (by decide)
    "hi" evOkFirst rfl rfl
  exact ⟨h.1, h.2.1, h.2.2.1, h.2.2.2.1 99, h.2.2.2.2 (by decide)⟩

/-- When every completion call in its window succeeds, the chunk loop
summarizes each nonempty chunk with exactly one completion call. -/
theorem summarizeChunksLoop_ok (complete : CompleteFun)
    (options : Option SummaryOptions) (total : Nat) :
    ∀ (chunks : List (List ChatMessage)) (i calls : Nat),
      (∀ c ∈ chunks, c ≠ []) →
      (∀ n p, calls ≤ n → n < calls + chunks.length →
        (complete n p).isOk = true) →
      ∃ ss, summarizeChunksLoop complete options total chunks i calls =
        (.ok ss, calls + chunks.length) ∧ ss.length = chunks.length := by
  intro chunks
  induction chunks with
  | nil => intro i calls _ _; exact ⟨[], rfl, rfl⟩
  | cons chunk rest ih =>
    intro i calls hne hok
    have hchunk_ne : chunk ≠ [] := hne chunk (List.mem_cons_self _ _)
    have hlen0 : ¬ chunk.length = 0 := fun h =>
      hchunk_ne (List.eq_nil_of_length_eq_zero h)
    have hc0 : (complete calls (buildChunkPrompt chunk options)).isOk = true :=
      hok calls _ le_rfl (by simp only [List.length_cons]; omega)
    obtain ⟨s, hs⟩ : ∃ s, complete calls (buildChunkPrompt chunk options) = .ok s := by
      cases hcc : complete calls (buildChunkPrompt chunk options) with
      | ok s => exact ⟨s, rfl⟩
      | error e =>
        rw [hcc] at hc0
        cases hc0
    obtain ⟨ss, hss, hsslen⟩ := ih (i + 1) (calls + 1)
      (fun c hc => hne c (List.mem_cons_of_mem _ hc))
      (fun n p h1 h2 => hok n p (by omega)
        (by simp only [List.length_cons]; omega))
    refine ⟨("[Chunk " ++ toString (i + 1) ++ "/" ++ toString total ++ " - "
      ++ toString chunk.length ++ " messages]:\n" ++ s) :: ss, ?_, ?_⟩
    · simp only [summarizeChunksLoop, summarizeChunk, if_neg hlen0, hs, hss]
      simp only [Prod.mk.injEq, List.length_cons]
      exact ⟨trivial, by omega⟩
    · simp only [List.length_cons, hsslen]

/-- When every chunk call succeeds and the merge call fails, the
hierarchical summarization returns the merge error after
`numChunks + 1` completion calls — there is no fallback. -/
theorem summarizeLarge_merge_error (complete : CompleteFun)
    (msgs : List ChatMessage) (options : Option SummaryOptions) (e : String)
    (h2 : 2 ≤ (chunksOf 900 msgs).length)
    (hok : ∀ n p, n < (chunksOf 900 msgs).length → (complete n p).isOk = true)
    (hmerge : ∀ p, complete (chunksOf 900 msgs).length p = .error e) :
    summarizeLargeMessageSet complete msgs options 900 0 =
      (.error e, (chunksOf 900 msgs).length + 1) := by
  obtain ⟨ss, hss, hsslen⟩ := summarizeChunksLoop_ok complete options
    (chunksOf 900 msgs).length (chunksOf 900 msgs) 0 0
    (fun c hc => chunksOfAux_ne_nil 900 (by omega) msgs.length msgs c hc)
    (fun n p _ hn => hok n p (by simpa using hn))
  simp only [summarizeLargeMessageSet]
  rw [hss]
  simp only [Nat.zero_add]
  cases ss with
  | nil =>
    simp only [List.length_nil] at hsslen
    omega
  | cons s1 stail =>
    cases stail with
    | nil =>
      simp only [List.length_cons, List.length_nil] at hsslen
      omega
    | cons s2 srest =>
      rw [hmerge _]

/-- When every completion call succeeds, the hierarchical summarization
issues one completion call per chunk plus one merge call. -/
theorem summarizeLarge_calls (complete : CompleteFun)
    (msgs : List ChatMessage) (options : Option SummaryOptions)
    (h2 : 2 ≤ (chunksOf 900 msgs).length)
    (hokAll : ∀ n p, (complete n p).isOk = true) :
    (summarizeLargeMessageSet complete msgs options 900 0).2 =
      (chunksOf 900 msgs).length + 1 := by
  obtain ⟨ss, hss, hsslen⟩ := summarizeChunksLoop_ok complete options
    (chunksOf 900 msgs).length (chunksOf 900 msgs) 0 0
    (fun c hc => chunksOfAux_ne_nil 900 (by omega) msgs.length msgs c hc)
    (fun n p _ _ => hokAll n p)
  simp only [summarizeLargeMessageSet]
  rw [hss]
  simp only [Nat.zero_add]
  cases ss with
  | nil =>
    simp only [List.length_nil] at hsslen
    omega
  | cons s1 stail =>
    cases stail with
    | nil =>
      simp only [List.length_cons, List.length_nil] at hsslen
      omega
    | cons s2 srest =>
      cases complete (chunksOf 900 msgs).length
          (buildMergePrompt (chunksOf 900 msgs).length msgs.length options
            (String.intercalate "\n\n---\n\n" (s1 :: s2 :: srest))) with
      | ok result => rfl
      | error e => rfl

/-- A message list that takes the hierarchical path has at least two
chunks. -/
theorem chunksOf_two_le (msgs : List ChatMessage) (hbig : 1000 < msgs.length) :
    2 ≤ (chunksOf 900 msgs).length := by
  have hne : msgs ≠ [] := by
    intro h
    rw [h] at hbig
    simp at hbig
  rw [chunksOf_length 900 (by omega) msgs hne]
  have : 1 ≤ (msgs.length - 1) / 900 := by
    rw [Nat.one_le_div_iff (by omega)]
    omega
  omega

/-- On the hierarchical path with an all-successful gateway, `summarize`
issues `numChunks + 1` completion calls. -/
theorem summarize_hierarchical_calls (complete : CompleteFun)
    (msgs : List ChatMessage) (options : Option SummaryOptions)
    (hbig : 1000 < msgs.length)
    (hokAll : ∀ n p, (complete n p).isOk = true) :
    (summarizeMessages complete msgs options).2 =
      (chunksOf 900 msgs).length + 1 := by
  unfold summarizeMessages
  rw [if_neg (by omega), if_pos (by omega)]
  exact summarizeLarge_calls complete msgs options (chunksOf_two_le msgs hbig)
    hokAll

/-- On the hierarchical path, successful chunk calls followed by a failing
merge call make `summarize` return the merge error after
`numChunks + 1` completion calls. -/
theorem summarize_merge_error_run (complete : CompleteFun)
    (msgs : List ChatMessage) (options : Option SummaryOptions) (e : String)
    (hbig : 1000 < msgs.length)
    (hok : ∀ n p, n < (chunksOf 900 msgs).length → (complete n p).isOk = true)
    (hmerge : ∀ p, complete (chunksOf 900 msgs).length p = .error e) :
    summarizeMessages complete msgs options =
      (.error e, (chunksOf 900 msgs).length + 1) := by
  unfold summarizeMessages
  rw [if_neg (by omega), if_pos (by omega)]
  exact summarizeLarge_merge_error complete msgs options e
    (chunksOf_two_le msgs hbig) hok hmerge

/-- C1 (amended): on the hierarchical path, when the chunk completion calls
succeed and the final merge completion call raises, `summarize` does not
fall back to the joined chunk summaries: it raises, propagating the merge
error unchanged (after one completion call per chunk plus the failed merge
call). -/
theorem merge_failure_propagates (complete : CompleteFun)
    (msgs : List ChatMessage) (options : Option SummaryOptions) (e : String)
    (hbig : 1000 < msgs.length)
    (hok : ∀ n p, n < (chunksOf 900 msgs).length → (complete n p).isOk = true)
    (hmerge : ∀ p, complete (chunksOf 900 msgs).length p = .error e) :
    summarizeMessages complete msgs options =
      (.error e, (chunksOf 900 msgs).length + 1) :=
  summarize_merge_error_run complete msgs options e hbig hok hmerge

/-- C1 counterexample: on the concrete 1001-message list whose two chunk
calls succeed and whose merge call raises, `summarize` raises the merge
error — it does not return a string containing the chunk summaries. -/
theorem merge_failure_counterexample :
    (summarizeMessages completeMergeFails manyMessages none).1 =
      .error "merge failed" := by
  have hlen : manyMessages.length = 1001 := by
    unfold manyMessages
    rw [List.length_replicate]
  have hne : manyMessages ≠ [] := by
    intro h
    rw [h] at hlen
    simp at hlen
  have hchl : (chunksOf 900 manyMessages).length = 2 := by
    rw [chunksOf_length 900 (by omega) manyMessages hne, hlen]
  have h := summarize_merge_error_run completeMergeFails manyMessages none
    "merge failed" (by omega) ?_ ?_
  · rw [h]
  · intro n p hn
    rw [hchl] at hn
    unfold completeMergeFails
    rw [if_pos hn]
    rfl
  · intro p
    rw [hchl]
    rfl

/-- C1 witness (for the amended claim): the concrete merge-failure run
raises the merge error after three completion calls. -/
theorem merge_failure_propagates_witness :
    1000 < manyMessages.length ∧
    summarizeMessages completeMergeFails manyMessages none =
      (.error "merge failed", 3) := by
  have hlen : manyMessages.length = 1001 := by
    unfold manyMessages
    rw [List.length_replicate]
  have hne : manyMessages ≠ [] := by
    intro h
    rw [h] at hlen
    simp at hlen
  have hchl : (chunksOf 900 manyMessages).length = 2 := by
    rw [chunksOf_length 900 (by omega) manyMessages hne, hlen]
  have h := merge_failure_propagates completeMergeFails manyMessages none
    "merge failed" (by omega) ?_ ?_
  · rw [hchl] at h
    exact ⟨by omega, h⟩
  · intro n p hn
    rw [hchl] at hn
    unfold completeMergeFails
    rw [if_pos hn]
    rfl
  · intro p
    rw [hchl]
    rfl

/-- C2 (amended): for a message list of length `k·900 + r` (`0 < r < 900`,
`k ≥ 1`) taking the hierarchical path, with an all-successful gateway,
`summarize` issues exactly `k + 2` completion calls: one per each of the
`k + 1` chunks plus one merge call. -/
theorem hierarchical_call_count (complete : CompleteFun)
    (msgs : List ChatMessage) (options : Option SummaryOptions) (k r : Nat)
    (hokAll : ∀ n p, (complete n p).isOk = true)
    (hlen : msgs.length = k * 900 + r) (hr0 : 0 < r) (hr1 : r < 900)
    (_hk : 1 ≤ k) (hbig : 1000 < msgs.length) :
    (summarizeMessages complete msgs options).2 = k + 2 := by
  rw [summarize_hierarchical_calls complete msgs options hbig hokAll]
  have hne : msgs ≠ [] := by
    intro h
    rw [h] at hbig
    simp at hbig
  rw [chunksOf_length 900 (by omega) msgs hne, hlen]
  have hdiv : (k * 900 + r - 1) / 900 = k := by
    have h1 : k * 900 + r - 1 = 900 * k + (r - 1) := by ring_nf; omega
    rw [h1, Nat.mul_add_div (by omega), Nat.div_eq_of_lt (by omega)]
    omega
  omega

/-- C2 counterexample: 1001 messages (`k = 1`, `r = 101`) with an
all-successful gateway make 3 completion calls — two chunk calls plus a
merge call — not `k + 1 = 2`. -/
theorem hierarchical_call_count_counterexample :
    manyMessages.length = 1 * 900 + 101 ∧
    (summarizeMessages completeAllOk manyMessages none).2 = 3 ∧
    (summarizeMessages completeAllOk manyMessages none).2 ≠ 1 + 1 := by
  have hlen : manyMessages.length = 1001 := by
    unfold manyMessages
    rw [List.length_replicate]
  have hne : manyMessages ≠ [] := by
    intro h
    rw [h] at hlen
    simp at hlen
  have h3 : (summarizeMessages completeAllOk manyMessages none).2 = 3 := by
    rw [summarize_hierarchical_calls completeAllOk manyMessages none (by omega)
      (fun n p => rfl)]
    rw [chunksOf_length 900 (by omega) manyMessages hne, hlen]
  exact ⟨by omega, h3, by rw [h3]; omega⟩

/-- C2 witness (for the amended claim): the concrete 1001-message run makes
`1 + 2` completion calls. -/
theorem hierarchical_call_count_witness :
    manyMessages.length = 1 * 900 + 101 ∧
    1000 < manyMessages.length ∧
    (summarizeMessages completeAllOk manyMessages none).2 = 1 + 2 := by
  have hlen : manyMessages.length = 1001 := by
    unfold manyMessages
    rw [List.length_replicate]
  exact ⟨by omega, by omega,
    hierarchical_call_count completeAllOk manyMessages none 1 101
      (fun n p => rfl) (by omega) (by omega) (by omega) (by omega) (by omega)⟩

end TldReply
